import Mathlib

/-!
Verification development for the `pls` task and artifact runner.

Strings from the Rust source are modelled as `List Char` (`Str`); the
`HashMap`s of the source are modelled as association lists looked up with
`List.lookup`-style search, so that every operation stays executable and
decidable.  Each definition below is a shallow embedding of the function of
the same name in the Rust source (`src/context.rs`, `src/name.rs`,
`src/cleanup.rs`, `src/target.rs`, `src/watch.rs`, `src/commands.rs`,
`src/runner.rs`); filesystem, process and clock effects are passed in as
explicit oracle parameters.
-/

/-- Character strings, modelled as lists of characters. -/
abbrev Str := List Char

/-- The `HashMap::get` on an association-list model of a hash map. -/
def lookupA {α β : Type} [DecidableEq α] (m : List (α × β)) (k : α) : Option β :=
  (m.find? (fun p => p.1 = k)).map (·.2)

/-- The `str::find(c)`: index of the first occurrence of a character. -/
def findChar (c : Char) : Str → Option Nat
  | [] => none
  | x :: xs => if x = c then some 0 else (findChar c xs).map (· + 1)

/-- The `str::split_once(c)`: the part before the first occurrence of `c` and the
part after it (only used when `c` is known to occur). -/
def splitOnce (c : Char) (s : Str) : Str × Str :=
  (s.takeWhile (· ≠ c), (s.dropWhile (· ≠ c)).drop 1)

/-- The `str::replace(pat, repl)`: replace every (non-overlapping, left to right)
occurrence of `pat`.  The `pat = []` guard only protects termination; every
pattern used by the source is brace-delimited and non-empty. -/
def replaceAll (pat repl : Str) : Str → Str
  | [] => []
  | c :: rest =>
    if pat ≠ [] ∧ pat.isPrefixOf (c :: rest) then
      repl ++ replaceAll pat repl ((c :: rest).drop pat.length)
    else
      c :: replaceAll pat repl rest
termination_by s => s.length
decreasing_by
  · simp only [List.length_drop, List.length_cons]
    rename_i h
    have : 1 ≤ pat.length := by
      cases pat with
      | nil => exact absurd rfl h.1
      | cons p ps => simp
    omega
  · simp

/-- The `FullyQualifiedName` from `src/name.rs`. -/
structure FullyQualifiedName where
  tag : Str
  name : Str
deriving DecidableEq, Repr

/-- The `Display for FullyQualifiedName`: the textual form `tag.name`. -/
def FullyQualifiedName.render (f : FullyQualifiedName) : Str :=
  f.tag ++ '.' :: f.name

/-- The `FullyQualifiedName::from_string` from `src/name.rs`: split on every dot,
the name is the last part, the tag is the rest re-joined with dots. -/
def FullyQualifiedName.from_string (input : Str) : FullyQualifiedName :=
  let parts := input.splitOn '.'
  { tag := List.intercalate ['.'] (parts.take (parts.length - 1))
    name := (parts.getLast?).getD [] }

/-- The `Variable` enum of `src/context.rs`. -/
inductive Variable where
  | Simple (key : Str)
  | Global (key : Str)
  | Ref (target : Str) (key : Str)
  | Output (target : Str) (key : Str)
deriving DecidableEq, Repr

/-- The `Variable::from_string` from `src/context.rs` (it never fails, so the
`Result` wrapper of the source is dropped). -/
def Variable.from_string (input : Str) : Variable :=
  if '.' ∉ input then
    .Simple input
  else if ("globals.".data).isPrefixOf input then
    .Global (input.drop 8)
  else
    let parts := input.splitOn '.'
    if parts.length > 2 ∧ parts.getD (parts.length - 2) [] = "output".data then
      .Output (List.intercalate ['.'] (parts.take (parts.length - 2)))
        ((parts.getLast?).getD [])
    else
      .Ref (List.intercalate ['.'] (parts.take (parts.length - 1)))
        ((parts.getLast?).getD [])

example : Variable.from_string ("foo".data) = .Simple ("foo".data) := by decide
example : Variable.from_string ("globals.foo".data) = .Global ("foo".data) := by decide
example : Variable.from_string ("commands.exec.foo.output.bar".data)
    = .Output ("commands.exec.foo".data) "bar".data := by decide
example : Variable.from_string ("commands.exec.foo.bar".data)
    = .Ref ("commands.exec.foo".data) "bar".data := by decide

/-! ## Target model (`src/target.rs`, `src/targets/`) -/

/-- The `TargetInfo` from `src/target.rs`. -/
structure TargetInfo where
  name : FullyQualifiedName
  requires : List FullyQualifiedName
  variables_ : List (Str × Str)
  description : Option Str
deriving DecidableEq, Repr

/-- The `CommandInfo` from `src/target.rs`. -/
structure CommandInfo where
  daemon : Bool
deriving DecidableEq, Repr

/-- The `ArtifactInfo` from `src/target.rs`. -/
structure ArtifactInfo where
  updates_paths : Option (List Str)
  if_files_changed : Option (List Str)
deriving DecidableEq, Repr

/-- The `ExecCommand` from `src/targets/command/exec.rs`. -/
structure ExecCommand where
  command : Str
  default_args : Option Str
  env : List Str
  target_info : TargetInfo
  command_info : CommandInfo
deriving DecidableEq, Repr

/-- The `ContainerCommand` from `src/targets/command/container.rs`. -/
structure ContainerCommand where
  image : Str
  env : List Str
  command : Option Str
  mount : List (Str × Str)
  workdir : Option Str
  network : Option Str
  create_network : Bool
  default_args : Option Str
  target_info : TargetInfo
  command_info : CommandInfo
deriving DecidableEq, Repr

/-- The `ContainerArtifact` from `src/targets/artifact/container_image.rs`. -/
structure ContainerArtifact where
  context : Str
  tag : Str
  artifact_info : ArtifactInfo
  target_info : TargetInfo
deriving DecidableEq, Repr

/-- The `ExecArtifact` from `src/targets/artifact/exec.rs`. -/
structure ExecArtifact where
  command : Str
  env : List Str
  artifact_info : ArtifactInfo
  target_info : TargetInfo
deriving DecidableEq, Repr

/-- The `Command` enum from `src/target.rs`. -/
inductive Command where
  | Exec (c : ExecCommand)
  | Container (c : ContainerCommand)
deriving DecidableEq, Repr

/-- The `Artifact` enum from `src/target.rs` (the variant set used by
`src/context.rs`, which materializes both container-image and exec
artifacts). -/
inductive Artifact where
  | ContainerImage (a : ContainerArtifact)
  | Exec (a : ExecArtifact)
deriving DecidableEq, Repr

/-- The `Target` enum from `src/target.rs`. -/
inductive Target where
  | Artifact (a : Artifact)
  | Command (c : Command)
deriving DecidableEq, Repr

/-- Alias used where `Artifact` would otherwise resolve to the constructor
`Target.Artifact` inside the `Target` namespace. -/
abbrev ArtifactTy := Artifact

/-- Alias used where `Command` would otherwise resolve to the constructor
`Target.Command` inside the `Target` namespace. -/
abbrev CommandTy := Command

/-- The `Command::target_info`. -/
def Command.target_info : Command → TargetInfo
  | .Exec c => c.target_info
  | .Container c => c.target_info

/-- The `Command::command_info`. -/
def Command.command_info : Command → CommandInfo
  | .Exec c => c.command_info
  | .Container c => c.command_info

/-- The `Artifact::target_info`. -/
def Artifact.target_info : Artifact → TargetInfo
  | .ContainerImage a => a.target_info
  | .Exec a => a.target_info

/-- The `Artifact::artifact_info`. -/
def Artifact.artifact_info : Artifact → ArtifactInfo
  | .ContainerImage a => a.artifact_info
  | .Exec a => a.artifact_info

/-- The `Target::target_info`. -/
def Target.target_info : Target → TargetInfo
  | .Artifact a => a.target_info
  | .Command c => c.target_info

/-- The `Target::command_info`. -/
def Target.command_info : Target → Option CommandInfo
  | .Command c => some c.command_info
  | _ => none

/-- The `Target::artifact` (a `Result` in the source). -/
def Target.artifact : Target → Except Str ArtifactTy
  | .Artifact a => .ok a
  | _ => .error ("Expected an artifact".data)

/-- The `Target::command` (a `Result` in the source). -/
def Target.command : Target → Except Str CommandTy
  | .Command c => .ok c
  | _ => .error ("Expected a command".data)

/-- The `Artifact::container_image` (a `Result` in the source). -/
def Artifact.container_image : Artifact → Except Str ContainerArtifact
  | .ContainerImage a => .ok a
  | _ => .error ("Expected a container image".data)

/-- The `Artifact::exec` (a `Result` in the source). -/
def Artifact.exec : Artifact → Except Str ExecArtifact
  | .Exec a => .ok a
  | _ => .error ("Expected an exec artifact".data)

/-- The `Command::exec` (a `Result` in the source). -/
def Command.exec : Command → Except Str ExecCommand
  | .Exec c => .ok c
  | _ => .error ("Expected an exec command".data)

/-- The `Command::container` (a `Result` in the source). -/
def Command.container : Command → Except Str ContainerCommand
  | .Container c => .ok c
  | _ => .error ("Expected a container command".data)

/-! ## Configuration model (`src/config.rs`) -/

/-- The `config::TargetInfo`; the `extends` field is spelled `extends_` because
`extends` is a Lean keyword. -/
structure ConfigTargetInfo where
  requires : Option (List Str)
  extends_ : Option Str
  variables_ : Option (List (Str × Str))
  description : Option Str
deriving DecidableEq, Repr

/-- The `config::CommandInfo`. -/
structure ConfigCommandInfo where
  daemon : Option Bool
deriving DecidableEq, Repr

/-- The `config::ArtifactInfo`. -/
structure ConfigArtifactInfo where
  updates_paths : Option (List Str)
  if_files_changed : Option (List Str)
deriving DecidableEq, Repr

/-- The `config::ExecCommand` (with the `env` field read by
`ExecCommand::from_config`). -/
structure ConfigExecCommand where
  command : Option Str
  default_args : Option Str
  env : Option (List Str)
  target_info : ConfigTargetInfo
  command_info : ConfigCommandInfo
deriving DecidableEq, Repr

/-- The `config::ContainerCommand`. -/
structure ConfigContainerCommand where
  image : Option Str
  env : Option (List Str)
  command : Option Str
  mount : Option (List (Str × Str))
  workdir : Option Str
  network : Option Str
  create_network : Option Bool
  default_args : Option Str
  target_info : ConfigTargetInfo
  command_info : ConfigCommandInfo
deriving DecidableEq, Repr

/-- The `config::ContainerBuild`. -/
structure ConfigContainerBuild where
  context : Option Str
  tag : Option Str
  artifact_info : ConfigArtifactInfo
  target_info : ConfigTargetInfo
deriving DecidableEq, Repr

/-- The `config::ExecArtifact` (with the `env` field read by
`ExecArtifact::from_config`). -/
structure ConfigExecArtifact where
  command : Option Str
  env : Option (List Str)
  artifact_info : ConfigArtifactInfo
  target_info : ConfigTargetInfo
deriving DecidableEq, Repr

/-- The `ConfigWrapper` enum of `src/context.rs`. -/
inductive ConfigWrapper where
  | Exec (c : ConfigExecCommand)
  | Container (c : ConfigContainerCommand)
  | ContainerBuild (c : ConfigContainerBuild)
  | ExecArtifact (c : ConfigExecArtifact)
deriving DecidableEq, Repr

/-- The `ConfigWrapper::target_info`. -/
def ConfigWrapper.target_info : ConfigWrapper → ConfigTargetInfo
  | .Exec c => c.target_info
  | .Container c => c.target_info
  | .ContainerBuild c => c.target_info
  | .ExecArtifact c => c.target_info

/-- The `ConfigWrapper::command_info`. -/
def ConfigWrapper.command_info : ConfigWrapper → Option ConfigCommandInfo
  | .Exec c => some c.command_info
  | .Container c => some c.command_info
  | .ContainerBuild _ => none
  | .ExecArtifact _ => none

/-- The `ConfigWrapper::artifact_info`. -/
def ConfigWrapper.artifact_info : ConfigWrapper → Option ConfigArtifactInfo
  | .Exec _ => none
  | .Container _ => none
  | .ContainerBuild c => some c.artifact_info
  | .ExecArtifact c => some c.artifact_info

/-- The `ConfigWrapper::extends`. -/
def ConfigWrapper.extends_ : ConfigWrapper → Option Str :=
  fun c => c.target_info.extends_

/-- The `type_tag` of each config variant (`src/config.rs`). -/
def ConfigWrapper.type_tag : ConfigWrapper → Str
  | .Exec _ => "command.exec".data
  | .Container _ => "command.container".data
  | .ContainerBuild _ => "artifact.container_image".data
  | .ExecArtifact _ => "artifact.exec".data

/-- The `is_artifact` of each config variant (`src/config.rs`). -/
def ConfigWrapper.is_artifact : ConfigWrapper → Bool
  | .Exec _ => false
  | .Container _ => false
  | .ContainerBuild _ => true
  | .ExecArtifact _ => true

/-! ## Load-time name resolution (`src/context.rs`) -/

/-- The `name_map` of `Context::from_config`: short names and fully qualified
strings each map to the list of matching fully qualified names. -/
abbrev NameMap := List (Str × List FullyQualifiedName)

/-- The `extract_variables` from `src/context.rs`: indices of `\x7b` restart the
candidate start position, and each `\x7d` with a pending start emits the
slice strictly between them. -/
def extract_variables (input : Str) : List Str :=
  (input.enum.foldl
    (fun (acc : List Str × Option Nat) (ic : Nat × Char) =>
      if ic.2 = '{' then (acc.1, some (ic.1 + 1))
      else if ic.2 = '}' then
        match acc.2 with
        | some s => (acc.1 ++ [(input.drop s).take (ic.1 - s)], none)
        | none => acc
      else acc)
    ([], none)).1

example : extract_variables ("echo {a} and {g.b}".data) = ["a".data, "g.b".data] := by decide
example : extract_variables ("a\x7bb{c}".data) = ["c".data] := by decide

/-- The `get_lookup_name` from `src/context.rs`: split at the first dot if there
is one, otherwise use the supplied default tag. -/
def get_lookup_name (name : Str) (default_tag : Str) : FullyQualifiedName :=
  if '.' ∈ name then
    let p := splitOnce '.' name
    { tag := p.1, name := p.2 }
  else
    { tag := default_tag, name := name }

/-- The `resolve_requires` from `src/context.rs`. -/
def resolve_requires (requires : List Str) (name_map : NameMap) :
    Except Str (List FullyQualifiedName) :=
  requires.mapM fun r =>
    match lookupA name_map r with
    | some candidates =>
      if candidates.length > 1 then
        .error ("Ambiguous reference <".data ++ r ++ ">".data)
      else
        .ok ((candidates.head?).getD { tag := [], name := [] })
    | none => .error ("Non-existent reference <".data ++ r ++ ">".data)

/-- The `resolve_target_names_in` from `src/context.rs`: rewrite every
brace-delimited cross-target reference to its fully qualified form. -/
def resolve_target_names_in (input : Str) (name_map : NameMap) : Except Str Str :=
  (extract_variables input).foldlM
    (fun output var =>
      let tk : Option (Str × Str) :=
        match Variable.from_string var with
        | .Simple _ => none
        | .Global _ => none
        | .Ref target_name key => some (target_name, key)
        | .Output target_name key => some (target_name, "output.".data ++ key)
      match tk with
      | none => .ok output
      | some (target_name, key) =>
        match lookupA name_map target_name with
        | some candidates =>
          if candidates.length > 1 then
            .error ("Ambiguous reference <".data ++ target_name ++ ">".data)
          else
            let matched := (candidates.head?).getD { tag := [], name := [] }
            let resolved := matched.render ++ '.' :: key
            .ok (replaceAll ('{' :: var ++ ['}']) ('{' :: resolved ++ ['}']) output)
        | none => .error ("Non-existent reference <".data ++ target_name ++ ">".data))
    input

/-- The `resolve_variables` from `src/context.rs`. -/
def resolve_variables (variables_ : List (Str × Str)) (name_map : NameMap) :
    Except Str (List (Str × Str)) :=
  variables_.mapM fun r => do
    pure (← resolve_target_names_in r.1 name_map, ← resolve_target_names_in r.2 name_map)

/-- The `resolve_target_names_in_map` from `src/context.rs`. -/
def resolve_target_names_in_map (input : List (Str × Str)) (name_map : NameMap) :
    Except Str (List (Str × Str)) :=
  input.mapM fun kv => do
    pure (← resolve_target_names_in kv.1 name_map, ← resolve_target_names_in kv.2 name_map)

/-- The `resolve_target_names_in_vec` from `src/context.rs`. -/
def resolve_target_names_in_vec (input : List Str) (name_map : NameMap) :
    Except Str (List Str) :=
  input.mapM fun v => resolve_target_names_in v name_map

/-- The `_default_to` from `src/default.rs`: prefer the child's value, then the
base's, then the given default. -/
def defaultTo {T : Type} (prefer : Option T) (base : Option T) (dflt : T) : T :=
  (prefer <|> base).getD dflt

/-- The `_default_optional` from `src/default.rs`. -/
def defaultOptional {T : Type} (prefer : Option T) (base : Option T) : Option T :=
  prefer <|> base

/-- The `target_info_from_config` from `src/context.rs`: base requires and
variables first, then the child's appended (variables collide by extension
order in the association-list model, mirroring `HashMap::extend` where the
child overrides). -/
def target_info_from_config (name : FullyQualifiedName) (config : ConfigTargetInfo)
    (name_map : NameMap) (base : Option TargetInfo) : Except Str TargetInfo := do
  let baseRequires := (base.map (·.requires)).getD []
  let others ← match config.requires with
    | some rs => (resolve_requires rs name_map).map some
    | none => pure none
  let requires := baseRequires ++ others.getD []
  let baseVars := (base.map (·.variables_)).getD []
  let otherVars ← match config.variables_ with
    | some vs => (resolve_variables vs name_map).map some
    | none => pure none
  -- `HashMap::extend`: later entries override earlier ones; in the
  -- association-list model the child's entries are prepended so that
  -- `lookupA` finds them first.
  let variables_ := (otherVars.getD []) ++ baseVars
  pure { name := name, requires := requires, variables_ := variables_,
         description := config.description }

/-- The `command_info_from_config` from `src/context.rs`. -/
def command_info_from_config (config : ConfigCommandInfo) (base : Option CommandInfo) :
    CommandInfo :=
  { daemon := defaultTo config.daemon (base.map (·.daemon)) false }

/-- The `artifact_info_from_config` from `src/context.rs`: path lists merge with
the base's first; `none` and `none` stay `none`. -/
def artifact_info_from_config (config : ConfigArtifactInfo) (name_map : NameMap)
    (base : Option ArtifactInfo) : Except Str ArtifactInfo := do
  let baseUpdates := (base.map (·.updates_paths)).getD none
  let others ← match config.updates_paths with
    | some rs => (resolve_target_names_in_vec rs name_map).map some
    | none => pure none
  let updates_paths := match baseUpdates, others with
    | some a, none => some a
    | none, some b => some b
    | some a, some b => some (a ++ b)
    | none, none => none
  let baseChanged := (base.map (·.if_files_changed)).getD none
  let otherChanged ← match config.if_files_changed with
    | some rs => (resolve_target_names_in_vec rs name_map).map some
    | none => pure none
  let if_files_changed := match baseChanged, otherChanged with
    | some a, none => some a
    | none, some b => some b
    | some a, some b => some (a ++ b)
    | none, none => none
  pure { updates_paths := updates_paths, if_files_changed := if_files_changed }

/-- The `config::TargetInfo::with_resolved_targets`. -/
def ConfigTargetInfo.with_resolved_targets (c : ConfigTargetInfo) (name_map : NameMap) :
    Except Str ConfigTargetInfo := do
  let vars ← match c.variables_ with
    | some vs => (resolve_target_names_in_map vs name_map).map some
    | none => pure none
  pure { c with variables_ := vars }

/-- The `config::CommandInfo::with_resolved_targets` (the identity). -/
def ConfigCommandInfo.with_resolved_targets (c : ConfigCommandInfo) (_name_map : NameMap) :
    Except Str ConfigCommandInfo :=
  .ok c

/-- The `config::ArtifactInfo::with_resolved_targets`. -/
def ConfigArtifactInfo.with_resolved_targets (c : ConfigArtifactInfo) (name_map : NameMap) :
    Except Str ConfigArtifactInfo := do
  let ups ← match c.updates_paths with
    | some vs => (resolve_target_names_in_vec vs name_map).map some
    | none => pure none
  let ifc ← match c.if_files_changed with
    | some vs => (resolve_target_names_in_vec vs name_map).map some
    | none => pure none
  pure { c with updates_paths := ups, if_files_changed := ifc }

/-- The `config::ExecCommand::with_resolved_targets`. -/
def ConfigExecCommand.with_resolved_targets (c : ConfigExecCommand) (name_map : NameMap) :
    Except Str ConfigExecCommand := do
  let cmd ← match c.command with
    | some v => (resolve_target_names_in v name_map).map some
    | none => pure none
  let da ← match c.default_args with
    | some v => (resolve_target_names_in v name_map).map some
    | none => pure none
  pure { c with command := cmd, default_args := da }

/-- The `config::ContainerCommand::with_resolved_targets`. -/
def ConfigContainerCommand.with_resolved_targets (c : ConfigContainerCommand)
    (name_map : NameMap) : Except Str ConfigContainerCommand := do
  let image ← match c.image with
    | some v => (resolve_target_names_in v name_map).map some
    | none => pure none
  let env ← match c.env with
    | some v => (resolve_target_names_in_vec v name_map).map some
    | none => pure none
  let cmd ← match c.command with
    | some v => (resolve_target_names_in v name_map).map some
    | none => pure none
  let mount ← match c.mount with
    | some v => (resolve_target_names_in_map v name_map).map some
    | none => pure none
  let workdir ← match c.workdir with
    | some v => (resolve_target_names_in v name_map).map some
    | none => pure none
  let network ← match c.network with
    | some v => (resolve_target_names_in v name_map).map some
    | none => pure none
  let da ← match c.default_args with
    | some v => (resolve_target_names_in v name_map).map some
    | none => pure none
  pure { c with image := image, env := env, command := cmd, mount := mount,
                workdir := workdir, network := network, default_args := da }

/-- The `config::ContainerBuild::with_resolved_targets`. -/
def ConfigContainerBuild.with_resolved_targets (c : ConfigContainerBuild)
    (name_map : NameMap) : Except Str ConfigContainerBuild := do
  let ctx ← match c.context with
    | some v => (resolve_target_names_in v name_map).map some
    | none => pure none
  let tag ← match c.tag with
    | some v => (resolve_target_names_in v name_map).map some
    | none => pure none
  pure { c with context := ctx, tag := tag }

/-- The `config::ExecArtifact::with_resolved_targets`. -/
def ConfigExecArtifact.with_resolved_targets (c : ConfigExecArtifact)
    (name_map : NameMap) : Except Str ConfigExecArtifact := do
  let cmd ← match c.command with
    | some v => (resolve_target_names_in v name_map).map some
    | none => pure none
  pure { c with command := cmd }

/-! ## Inheritance resolver (`src/context.rs`, `src/targets/`) -/

/-- The `ExecCommand::from_config` from `src/targets/command/exec.rs`: base env
first, then the child's; scalar fields defaulted child-then-base. -/
def ExecCommand.from_config (target_info : TargetInfo) (command_info : CommandInfo)
    (defn : ConfigExecCommand) (base : Option ExecCommand) : ExecCommand :=
  { command := defaultTo defn.command (base.map (·.command)) []
    default_args := defaultOptional defn.default_args (base.bind (·.default_args))
    env := ((base.map (·.env)).getD []) ++ (defn.env.getD [])
    target_info := target_info
    command_info := command_info }

/-- The `ContainerCommand::from_config` from `src/targets/command/container.rs`. -/
def ContainerCommand.from_config (target_info : TargetInfo) (command_info : CommandInfo)
    (defn : ConfigContainerCommand) (base : Option ContainerCommand) : ContainerCommand :=
  { target_info := target_info
    command_info := command_info
    image := defaultTo defn.image (base.map (·.image)) []
    env := ((base.map (·.env)).getD []) ++ (defn.env.getD [])
    command := defaultOptional defn.command (base.bind (·.command))
    mount := defaultTo defn.mount (base.map (·.mount)) []
    workdir := defaultOptional defn.workdir (base.bind (·.workdir))
    network := defaultOptional defn.network (base.bind (·.network))
    create_network := defaultTo defn.create_network (base.map (·.create_network)) false
    default_args := defaultOptional defn.default_args (base.bind (·.default_args)) }

/-- The `ContainerArtifact::from_config` from `src/targets/artifact/container_image.rs`. -/
def ContainerArtifact.from_config (target_info : TargetInfo) (artifact_info : ArtifactInfo)
    (defn : ConfigContainerBuild) (base : Option ContainerArtifact) : ContainerArtifact :=
  { target_info := target_info
    artifact_info := artifact_info
    context := defaultTo defn.context (base.map (·.context)) []
    tag := defaultTo defn.tag (base.map (·.tag)) [] }

/-- The `ExecArtifact::from_config` from `src/targets/artifact/exec.rs`. -/
def ExecArtifact.from_config (target_info : TargetInfo) (artifact_info : ArtifactInfo)
    (defn : ConfigExecArtifact) (base : Option ExecArtifact) : ExecArtifact :=
  { target_info := target_info
    artifact_info := artifact_info
    command := defaultTo defn.command (base.map (·.command)) []
    env := ((base.map (·.env)).getD []) ++ (defn.env.getD []) }

/-- The `validator` checks on `ExecCommand` (`length(min = 1)` on `command`,
non-empty strings in `env`). -/
def ExecCommand.validate (c : ExecCommand) : Except Str Unit :=
  if c.command = [] then .error ("command: length".data)
  else if c.env.any (· = []) then .error ("env: non-empty strings".data)
  else .ok ()

/-- The `validator` checks on `ContainerCommand`. -/
def ContainerCommand.validate (c : ContainerCommand) : Except Str Unit :=
  if c.image = [] then .error ("image must not be empty".data)
  else if c.env.any (· = []) then .error ("env: non-empty strings".data)
  else if c.command = some [] then .error ("command: length".data)
  else if c.mount.any (fun kv => kv.1 = [] ∨ kv.2 = []) then
    .error ("mount: keys and values non-empty".data)
  else if c.workdir = some [] then .error ("workdir: length".data)
  else if c.network = some [] then .error ("network: length".data)
  else .ok ()

/-- The validation applied to a materialized `ContainerArtifact` (`context`
and `tag` must not be empty, per the config validators). -/
def ContainerArtifact.validate (c : ContainerArtifact) : Except Str Unit :=
  if c.context = [] then .error ("context must not be empty".data)
  else if c.tag = [] then .error ("tag must not be empty".data)
  else .ok ()

/-- The `validator` checks on `ExecArtifact`. -/
def ExecArtifact.validate (c : ExecArtifact) : Except Str Unit :=
  if c.command = [] then .error ("command: length".data)
  else if c.env.any (· = []) then .error ("env: non-empty strings".data)
  else .ok ()

/-- The non-recursive tail of `resolve_extends` (`src/context.rs` lines
343-436): materialize the target record from the config wrapper and the
already-resolved base. -/
def materializeTarget (name : FullyQualifiedName) (command : ConfigWrapper)
    (base : Option Target) (name_map : NameMap) : Except Str Target := do
  let cti ← command.target_info.with_resolved_targets name_map
  let baseInfo := base.map (·.target_info)
  let target_info ← target_info_from_config name cti name_map baseInfo
  if command.is_artifact then
    let cai ← match command.artifact_info with
      | some ai => ai.with_resolved_targets name_map
      | none => .error ("missing artifact_info".data)
    let baseArtifactInfo ← match base with
      | some b => (b.artifact.map (·.artifact_info)).map some
      | none => pure none
    let artifact_info ← artifact_info_from_config cai name_map baseArtifactInfo
    match command with
    | .ContainerBuild c => do
      let baseC ← match base with
        | some b => do
          let a ← b.artifact
          (a.container_image).map some
        | none => pure none
      let resolved ← c.with_resolved_targets name_map
      let artifact := ContainerArtifact.from_config target_info artifact_info resolved baseC
      let _ ← artifact.validate
      pure (Target.Artifact (Artifact.ContainerImage artifact))
    | .ExecArtifact c => do
      let baseC ← match base with
        | some b => do
          let a ← b.artifact
          (a.exec).map some
        | none => pure none
      let resolved ← c.with_resolved_targets name_map
      let artifact := ExecArtifact.from_config target_info artifact_info resolved baseC
      let _ ← artifact.validate
      pure (Target.Artifact (Artifact.Exec artifact))
    | _ => .error ("Unknown artifact type".data)
  else
    let cci ← match command.command_info with
      | some ci => ci.with_resolved_targets name_map
      | none => .error ("missing command_info".data)
    let baseCommandInfo ← match base with
      | some b => (b.command.map (·.command_info)).map some
      | none => pure none
    let command_info := command_info_from_config cci baseCommandInfo
    match command with
    | .Exec c => do
      let baseC ← match base with
        | some b => do
          let cmd ← b.command
          (cmd.exec).map some
        | none => pure none
      let resolved ← c.with_resolved_targets name_map
      let exec := ExecCommand.from_config target_info command_info resolved baseC
      let _ ← exec.validate
      pure (Target.Command (Command.Exec exec))
    | .Container c => do
      let baseC ← match base with
        | some b => do
          let cmd ← b.command
          (cmd.container).map some
        | none => pure none
      let resolved ← c.with_resolved_targets name_map
      let container := ContainerCommand.from_config target_info command_info resolved baseC
      let _ ← container.validate
      pure (Target.Command (Command.Container container))
    | _ => .error ("Unknown command type".data)

/-- The free function `resolve_extends` (`src/context.rs` lines 321-342),
made total with a fuel parameter: the source recurses on the `extends` chain
with no cycle detection, so `none` records that the recursion did not bottom
out within `fuel` nested calls (the source would still be recursing). -/
def resolveExtendsF (commands : List (FullyQualifiedName × ConfigWrapper))
    (name_map : NameMap) :
    Nat → FullyQualifiedName → ConfigWrapper → Option (Except Str Target)
  | 0, _, _ => none
  | fuel + 1, name, command =>
    let baseRes : Option (Except Str (Option Target)) :=
      match command.extends_ with
      | some ext =>
        let extends_fully_qualified := get_lookup_name ext command.type_tag
        match lookupA commands extends_fully_qualified with
        | some base =>
          (resolveExtendsF commands name_map fuel extends_fully_qualified base).map
            (·.map some)
        | none =>
          some (.error ("<".data ++ name.render ++ "> extends non-existent <".data
            ++ extends_fully_qualified.render ++ ">".data))
      | none => some (.ok none)
    match baseRes with
    | none => none
    | some (.error e) => some (.error e)
    | some (.ok base) => some (materializeTarget name command base name_map)

/-! ## Context construction and lookup (`src/context.rs`) -/

/-- The `Context` struct from `src/context.rs`. -/
structure Context where
  variables_ : List (FullyQualifiedName × List (Str × Str))
  globals : List (Str × Str)
  targets : List (FullyQualifiedName × Target)
  config_path : Str
deriving DecidableEq, Repr

/-- The in-memory `Config` tree (`src/config.rs`), with each
`Option<HashMap<String, _>>` table flattened to an entry list in iteration
order. -/
structure Config where
  globals : Option (List (Str × Str))
  command_exec : List (Str × ConfigExecCommand)
  command_container : List (Str × ConfigContainerCommand)
  artifact_container_image : List (Str × ConfigContainerBuild)
  artifact_exec : List (Str × ConfigExecArtifact)

/-- The `name_map.entry(k).or_insert_with(Vec::new).push(f)`. -/
def nmInsert (m : NameMap) (k : Str) (f : FullyQualifiedName) : NameMap :=
  match m with
  | [] => [(k, [f])]
  | (k', vs) :: rest =>
    if k' = k then (k', vs ++ [f]) :: rest else (k', vs) :: nmInsert rest k f

/-- One registration step of `Context::from_config`: record the wrapper under
its fully qualified name and index it in the name map under both its short
name and its fully qualified string. -/
def registerOne (acc : List (FullyQualifiedName × ConfigWrapper) × NameMap)
    (entry : Str × ConfigWrapper) :
    List (FullyQualifiedName × ConfigWrapper) × NameMap :=
  let fqn : FullyQualifiedName := { tag := entry.2.type_tag, name := entry.1 }
  (acc.1 ++ [(fqn, entry.2)],
   nmInsert (nmInsert acc.2 entry.1 fqn) fqn.render fqn)

/-- The registration phase of `Context::from_config`: exec commands, then
container commands, then container-image artifacts, then exec artifacts. -/
def registerConfig (config : Config) :
    List (FullyQualifiedName × ConfigWrapper) × NameMap :=
  let entries :=
    config.command_exec.map (fun e => (e.1, ConfigWrapper.Exec e.2))
    ++ config.command_container.map (fun e => (e.1, ConfigWrapper.Container e.2))
    ++ config.artifact_container_image.map (fun e => (e.1, ConfigWrapper.ContainerBuild e.2))
    ++ config.artifact_exec.map (fun e => (e.1, ConfigWrapper.ExecArtifact e.2))
  entries.foldl registerOne ([], [])

/-- The loop body of the method `Context::resolve_extends` (`src/context.rs`
lines 599-611): materialize every registered target in turn, stopping at the
first error; `none` records that some `extends` chain did not bottom out
within `fuel` nested calls. -/
def resolveAllTargets (commands : List (FullyQualifiedName × ConfigWrapper))
    (name_map : NameMap) (fuel : Nat) :
    List (FullyQualifiedName × ConfigWrapper) →
    List (FullyQualifiedName × Target) →
    Option (Except Str (List (FullyQualifiedName × Target)))
  | [], acc => some (.ok acc)
  | (name, command) :: rest, acc =>
    match resolveExtendsF commands name_map fuel name command with
    | none => none
    | some (.error e) => some (.error e)
    | some (.ok t) => resolveAllTargets commands name_map fuel rest (acc ++ [(name, t)])

/-- The `Context::from_config` (`src/context.rs` lines 504-597 together with the
method `Context::resolve_extends`, lines 599-611), with the fuel of
`resolveExtendsF` threaded through: `none` records that some target's
`extends` chain did not bottom out within `fuel` nested calls. -/
def Context.from_configF (fuel : Nat) (config : Config) (path : Str) :
    Option (Except Str Context) :=
  let reg := registerConfig config
  let commands := reg.1
  let name_map := reg.2
  let seededVars := commands.foldl
    (fun acc (e : FullyQualifiedName × ConfigWrapper) =>
      match e.2.target_info.variables_ with
      | some vs => acc ++ [(e.1, vs)]
      | none => acc)
    ([] : List (FullyQualifiedName × List (Str × Str)))
  (resolveAllTargets commands name_map fuel commands []).map (·.map (fun targets =>
    { variables_ := seededVars
      globals := (config.globals).getD []
      targets := targets
      config_path := path }))

/-- The `CommandLookupResult` enum from `src/context.rs`. -/
inductive CommandLookupResult where
  | NotFound
  | Found (t : Target)
  | Duplicates (l : List Str)
deriving DecidableEq, Repr

/-- The `Context::get_target` from `src/context.rs` lines 720-760: a reference
containing a dot is split at the *first* dot into tag and name and looked up
directly; otherwise every registered fully qualified name whose `name` field
matches is collected, more than one match is ambiguous, exactly one is
found. -/
def Context.get_target (ctx : Context) (name : Str) : CommandLookupResult :=
  if '.' ∈ name then
    let p := splitOnce '.' name
    let fully_qualified_name : FullyQualifiedName := { tag := p.1, name := p.2 }
    match lookupA ctx.targets fully_qualified_name with
    | some t => .Found t
    | none => .NotFound
  else
    let duplicates := (ctx.targets.map (·.1)).filter (fun key => key.name = name)
    if duplicates.length > 1 then
      .Duplicates (duplicates.map (·.render))
    else
      match duplicates.head? with
      | some n =>
        match lookupA ctx.targets n with
        | some t => .Found t
        | none => .NotFound
      | none => .NotFound

/-! ## Run-time substitution engine (`src/context.rs` lines 613-718) -/

/-- The `OutputsManager` from `src/outputs.rs`. -/
structure OutputsManager where
  outputs : List (FullyQualifiedName × List (Str × Str))
deriving DecidableEq, Repr

/-- The `OutputsManager::get`. -/
def OutputsManager.get (m : OutputsManager) (target_name : FullyQualifiedName)
    (key : Str) : Option Str :=
  (lookupA m.outputs target_name).bind (fun o => lookupA o key)

/-- Whether a scanned placeholder is the special `args` variable
(`Variable::Simple` with key `args`), which is what sets the source's
`replaced_args` flag. -/
def isArgsVar (v : Str) : Bool :=
  match Variable.from_string v with
  | .Simple key => key = "args".data
  | _ => false

/-- The replacement chosen for one scanned placeholder, mirroring the
`match Variable::from_string(variable)?` block of
`resolve_substitutions_inner`. -/
def lookupRepl (escaped_args_str : Str) (ctx : Context)
    (this_target_name : FullyQualifiedName) (outputs : OutputsManager)
    (v : Str) : Option Str :=
  match Variable.from_string v with
  | .Simple key =>
    if key = "args".data then some escaped_args_str
    else (lookupA ctx.variables_ this_target_name).bind (fun vars => lookupA vars key)
  | .Global key => lookupA ctx.globals key
  | .Output target_name key =>
    outputs.get (FullyQualifiedName.from_string target_name) key
  | .Ref target_name key =>
    (lookupA ctx.variables_ (FullyQualifiedName.from_string target_name)).bind
      (fun vars => lookupA vars key)

/-- The `while index < command.len()` loop of `resolve_substitutions_inner`:
scan the *original* text left to right; at each iteration find the next
brace pair, look the placeholder up, and replace every occurrence of the
placeholder in the accumulated result.  An unmatched brace stops the scan;
a failed lookup is an error. -/
def scanGo (look : Str → Option Str) :
    Str → Str → Bool → Except Str (Str × Bool)
  | [], resolved, replaced_args => .ok (resolved, replaced_args)
  | c :: cs, resolved, replaced_args =>
    match findChar '{' (c :: cs) with
    | none => .ok (resolved, replaced_args)
    | some f =>
      match findChar '}' ((c :: cs).drop f) with
      | none => .ok (resolved, replaced_args)
      | some e =>
        let v := ((c :: cs).drop (f + 1)).take (e - 1)
        match look v with
        | none => .error ("Variable <".data ++ v ++ "> not found".data)
        | some repl =>
          scanGo look ((c :: cs).drop (f + e + 1))
            (replaceAll ('{' :: v ++ ['}']) repl resolved)
            (replaced_args || isArgsVar v)
termination_by rest _ _ => rest.length
decreasing_by
  simp only [List.length_drop, List.length_cons]
  omega

/-- The placeholders the scanner of `resolve_substitutions_inner` visits, in
order; this depends only on the input text, not on the substitution
context. -/
def scanPlaceholders : Str → List Str
  | [] => []
  | c :: cs =>
    match findChar '{' (c :: cs) with
    | none => []
    | some f =>
      match findChar '}' ((c :: cs).drop f) with
      | none => []
      | some e =>
        (((c :: cs).drop (f + 1)).take (e - 1)) :: scanPlaceholders ((c :: cs).drop (f + e + 1))
termination_by rest => rest.length
decreasing_by
  simp only [List.length_drop, List.length_cons]
  omega

/-- The `escaped_args_str` computation of `resolve_substitutions_inner`: an
empty supplied argument list falls back to `default_args` (or the empty
string), a non-empty one is escaped element-wise and joined with single
spaces, and absent arguments give the empty string. -/
def escapedArgsStr (esc : Str → Str) (args : Option (List Str))
    (default_args : Option Str) : Str :=
  match args with
  | some as_ => if as_ = [] then default_args.getD [] else
      List.intercalate [' '] (as_.map esc)
  | none => []

/-- The `Context::resolve_substitutions_inner` from `src/context.rs` lines
622-701.  The external `shlex::try_quote` escape is passed in as the `esc`
parameter (it only fails on interior NUL bytes, which are excluded from the
model). -/
def Context.resolve_substitutions_inner (ctx : Context) (esc : Str → Str)
    (command : Str) (this_target_name : FullyQualifiedName)
    (outputs : OutputsManager) (args : Option (List Str))
    (default_args : Option Str) : Except Str Str :=
  let escaped_args_str := escapedArgsStr esc args default_args
  match scanGo (lookupRepl escaped_args_str ctx this_target_name outputs)
      command command false with
  | .error e => .error e
  | .ok (resolved, replaced_args) =>
    if ¬replaced_args ∧ args.isSome then
      .ok (resolved ++ ' ' :: escaped_args_str)
    else
      .ok resolved

/-- The `Context::resolve_substitutions` from `src/context.rs`: no arguments, no
default arguments. -/
def Context.resolve_substitutions (ctx : Context) (esc : Str → Str) (command : Str)
    (this_target_name : FullyQualifiedName) (outputs : OutputsManager) :
    Except Str Str :=
  ctx.resolve_substitutions_inner esc command this_target_name outputs none none

/-- The `Context::resolve_substitutions_with_args` from `src/context.rs`. -/
def Context.resolve_substitutions_with_args (ctx : Context) (esc : Str → Str)
    (command : Str) (this_target_name : FullyQualifiedName)
    (outputs : OutputsManager) (args : List Str) (default_args : Option Str) :
    Except Str Str :=
  ctx.resolve_substitutions_inner esc command this_target_name outputs
    (some args) default_args

/-- The single-quote character, written by code point to keep the source
free of quote-literal pitfalls. -/
def squote : Char := Char.ofNat 39

/-- The double-quote character, written by code point. -/
def dquote : Char := Char.ofNat 34

/-- A concrete model of the external `shlex::try_quote` escape used by
`shell::escape_string`: the empty string becomes a pair of single quotes,
strings of safe characters pass through, strings containing a single quote
are double-quoted (escaping double quotes, dollars and backslashes), and
everything else is single-quoted.  Only used to instantiate witnesses; the
theorems quantify over the escape function. -/
def escModel (s : Str) : Str :=
  if s = [] then [squote, squote]
  else if s.all (fun c => c.isAlphanum ∨ c ∈ ['_', '-', '.', '/', ':', '@', '%', '+', '=', ',']) then s
  else if squote ∈ s then
    dquote :: (s.flatMap (fun c => if c ∈ [dquote, '$', '\\'] then ['\\', c] else [c])) ++ [dquote]
  else
    squote :: s ++ [squote]

example : escModel ("foo".data) = "foo".data := by decide
example : escModel ("foo bar".data) = squote :: "foo bar".data ++ [squote] := by decide

/-! ## Cleanup stack (`src/cleanup.rs`) -/

/-- The `CleanupManager` from `src/cleanup.rs`: a vector of named thunks.  The
thunk payload is abstract; executing a thunk is modelled by emitting it. -/
structure CleanupManager (α : Type) where
  cleanups : List (Str × α)

/-- The `CleanupManager::push_cleanup`: `Vec::push` appends at the end. -/
def CleanupManager.push_cleanup {α : Type} (m : CleanupManager α) (name : Str)
    (cleanup : α) : CleanupManager α :=
  { cleanups := m.cleanups ++ [(name, cleanup)] }

/-- The `CleanupManager::pop_cleanup`: `Vec::pop` removes the last entry. -/
def CleanupManager.pop_cleanup {α : Type} (m : CleanupManager α) : CleanupManager α :=
  { cleanups := m.cleanups.dropLast }

/-- The `CleanupManager::run_cleanups`: `self.cleanups.drain(..)` yields the
entries front to back, each executed once; the first component is the list
of executed entries in execution order, the second the drained manager. -/
def CleanupManager.run_cleanups {α : Type} (m : CleanupManager α) :
    List (Str × α) × CleanupManager α :=
  (m.cleanups, { cleanups := [] })

/-! ## Staleness oracle (`src/target.rs` lines 623-751) -/

/-- The `LastRun` enum from `src/target.rs`; times are mtimes in an abstract
monotone unit. -/
inductive LastRun where
  | Never
  | Time (t : Nat)
deriving DecidableEq, Repr

/-- The fold step of `latest_update_time`: `Never` is absorbing, two times
keep the *later* one (`time > acc_time` in the source). -/
def lastRunFold (acc : Option LastRun) (modified_time : LastRun) : Option LastRun :=
  match acc, modified_time with
  | some .Never, _ => some .Never
  | _, .Never => some .Never
  | some (.Time acc_time), .Time time =>
    if acc_time < time then some (.Time time) else some (.Time acc_time)
  | none, t => some t

/-- The `latest_update_time` from `src/target.rs` lines 629-645: fold keeping
`Never` absorbing and otherwise the *later* of the two times, `Never` for an
empty list. -/
def latest_update_time (times : List LastRun) : LastRun :=
  (times.foldl lastRunFold none).getD .Never

example : latest_update_time [.Time 1, .Time 2] = .Time 2 := by decide
example : latest_update_time [.Time 3, .Never, .Time 2] = .Never := by decide
example : latest_update_time [] = .Never := by decide

/-- One entry yielded by iterating a glob: a matched path whose metadata read
gives an mtime (or fails, `none`), or a glob iteration error. -/
inductive GlobEntry where
  | okPath (mtime : Option Nat)
  | errEntry
deriving DecidableEq, Repr

/-- The mtime carried by a successfully read glob entry. -/
def getMTime : GlobEntry → Option Nat
  | .okPath (some t) => some t
  | _ => none

/-- The filesystem oracle for the staleness reading: each (already expanded)
glob pattern yields its matched entries.  A pattern matching no existing
file yields the empty list, exactly as `glob::glob` does. -/
abbrev GlobFs := Str → List GlobEntry

/-- The `update_times_of_glob` from `src/target.rs` lines 647-663: a matched path
with readable metadata contributes its mtime, a failed metadata read or an
errored glob entry contributes `Never`. -/
def update_times_of_glob (fs : GlobFs) (glob_str : Str) : List LastRun :=
  (fs glob_str).map fun e =>
    match e with
    | .okPath (some t) => .Time t
    | .okPath none => .Never
    | .errEntry => .Never

/-- The `latest_update_time_of_paths` from `src/target.rs` lines 683-698: expand
each declared path through run-time substitution, glob it, and combine all
entries with `latest_update_time`. -/
def latest_update_time_of_paths (fs : GlobFs) (esc : Str → Str) (paths : List Str)
    (target : TargetInfo) (ctx : Context) (outputs : OutputsManager) :
    Except Str LastRun := do
  let resolved ← paths.mapM (fun p => ctx.resolve_substitutions esc p target.name outputs)
  pure (latest_update_time ((resolved.map (update_times_of_glob fs)).flatten))

/-- The `last_run` from `src/target.rs` lines 717-751: with `updates_paths` set
the reading comes from the expanded output globs, otherwise from the
`last_run` sentinel file (whose mtime is the `sentinel` oracle, `none` when
the file does not exist). -/
def last_run (fs : GlobFs) (sentinel : Option Nat) (esc : Str → Str)
    (target : TargetInfo) (artifact_info : ArtifactInfo) (ctx : Context)
    (outputs : OutputsManager) : Except Str LastRun :=
  match artifact_info.updates_paths with
  | some updates_paths =>
    latest_update_time_of_paths fs esc updates_paths target ctx outputs
  | none =>
    match sentinel with
    | some t => .ok (.Time t)
    | none => .ok .Never

/-- Claim-side staleness reading, following the specification's words for
comparison with `last_run`: the *minimum* mtime across all files matched by
the `updates_paths` globs, `Never` (forcing a rebuild) when any expanded
output path matches no file; without `updates_paths`, the sentinel mtime.
The paths are taken as already expanded. -/
def lastRunSpecMin (fs : GlobFs) (sentinel : Option Nat) :
    Option (List Str) → LastRun
  | some ps =>
    if ps.any (fun p => fs p = []) then .Never
    else
      let times := (ps.map fs).flatten.filterMap fun e =>
        match e with
        | .okPath (some t) => some t
        | _ => none
      match times with
      | [] => .Never
      | t :: ts => .Time (ts.foldl Nat.min t)
  | none =>
    match sentinel with
    | some t => .Time t
    | none => .Never

/-! ## Watch engine (`src/watch.rs`) -/

/-- The `WatchTrigger` from `src/watch.rs`, with targets referenced by fully
qualified name (the source stores borrowed `&Target`s, deduplicated by
name). -/
structure WatchTrigger where
  paths : List Str
  target : FullyQualifiedName
  and_then : List FullyQualifiedName
deriving DecidableEq, Repr

/-- The `WatchTrigger::get_one`: an artifact contributes its `if_files_changed`
patterns, a command contributes no paths. -/
def WatchTrigger.get_one (t : Target) : WatchTrigger :=
  let paths :=
    match t.artifact with
    | .ok artifact => (artifact.artifact_info.if_files_changed).getD []
    | .error _ => []
  { paths := paths, target := t.target_info.name, and_then := [] }

/-- The `and_then_map.entry(req).or_default().push(tgt)`. -/
def atmPush (m : List (FullyQualifiedName × List FullyQualifiedName))
    (k : FullyQualifiedName) (v : FullyQualifiedName) :
    List (FullyQualifiedName × List FullyQualifiedName) :=
  match m with
  | [] => [(k, [v])]
  | (k', vs) :: rest =>
    if k' = k then (k', vs ++ [v]) :: rest else (k', vs) :: atmPush rest k v

/-- The body of the `for next in to_find.drain()` loop of
`WatchTrigger::get_all`: process each candidate once, following its forward
`requires` edges. -/
def getAllRound (ctx : Context) :
    List FullyQualifiedName →
    List (FullyQualifiedName × WatchTrigger) →
    List (FullyQualifiedName × List FullyQualifiedName) →
    List FullyQualifiedName →
    Except Str (List (FullyQualifiedName × WatchTrigger)
      × List (FullyQualifiedName × List FullyQualifiedName)
      × List FullyQualifiedName)
  | [], triggers, atm, newly => .ok (triggers, atm, newly)
  | next :: rest, triggers, atm, newly =>
    if (lookupA triggers next).isSome then
      getAllRound ctx rest triggers atm newly
    else
      match lookupA ctx.targets next with
      | none => .error ("Target <".data ++ next.render ++ "> not known".data)
      | some next_target =>
        let triggers' := triggers ++ [(next, WatchTrigger.get_one next_target)]
        let step := next_target.target_info.requires.foldl
          (fun (acc : List (FullyQualifiedName × List FullyQualifiedName)
                × List FullyQualifiedName) req =>
            let newly' :=
              if (lookupA triggers' req).isSome then acc.2 else acc.2 ++ [req]
            (atmPush acc.1 req next, newly'))
          (atm, newly)
        getAllRound ctx rest triggers' step.1 step.2

/-- The `while !newly_found_targets.is_empty()` loop of
`WatchTrigger::get_all`, with a fuel bound on the number of rounds (`none`
is never reached for fuel beyond the number of targets). -/
def getAllLoop (ctx : Context) :
    Nat → List FullyQualifiedName →
    List (FullyQualifiedName × WatchTrigger) →
    List (FullyQualifiedName × List FullyQualifiedName) →
    Option (Except Str (List (FullyQualifiedName × WatchTrigger)
      × List (FullyQualifiedName × List FullyQualifiedName)))
  | _, [], triggers, atm => some (.ok (triggers, atm))
  | 0, _ :: _, _, _ => none
  | fuel + 1, newly@(_ :: _), triggers, atm =>
    match getAllRound ctx newly triggers atm [] with
    | .error e => some (.error e)
    | .ok (triggers', atm', newly') => getAllLoop ctx fuel newly' triggers' atm'

/-- The `WatchTrigger::get_all` from `src/watch.rs` lines 59-110: seed the root's
trigger, walk the *forward* `requires` graph breadth-first, record an
`and_then` edge from each required target back to its requirer, and finally
attach the collected `and_then` lists. -/
def WatchTrigger.get_all (fuel : Nat) (t : Target) (ctx : Context) :
    Option (Except Str (List WatchTrigger)) :=
  let root := t.target_info.name
  let triggers := [(root, WatchTrigger.get_one t)]
  let seed := t.target_info.requires.foldl
    (fun (acc : List (FullyQualifiedName × List FullyQualifiedName)
          × List FullyQualifiedName) req =>
      (atmPush acc.1 req root, acc.2 ++ [req]))
    ([], [])
  (getAllLoop ctx fuel seed.2 triggers seed.1).map (·.map (fun r =>
    (r.1.map (fun nt =>
      { nt.2 with and_then := (lookupA r.2 nt.1).getD nt.2.and_then })) ))

/-! ## Process supervisor stop path (`src/commands.rs`, `src/runner.rs`) -/

/-- The result of one `waitpid(pid, WNOHANG)` call: `ECHILD` (not our child),
an `Exited` status, or any other status. -/
inductive WaitRes where
  | echild
  | exited
  | other
deriving DecidableEq, Repr

/-- Observable events of the stop path, in order: signals sent, liveness
checks (signal 0), `WNOHANG` reaps, and sleeps in milliseconds. -/
inductive StopEvent where
  | sigterm
  | sigkill
  | aliveCheck (b : Bool)
  | waitpidNohang (r : WaitRes)
  | sleepMs (n : Nat)
deriving DecidableEq, Repr

/-- The process environment oracle: the answer to the k-th liveness check and
to the k-th `waitpid` call.  Signal delivery always succeeds (the error
paths of `send_signal` are outside the model). -/
structure ProcEnv where
  alive : Nat → Bool
  wait : Nat → WaitRes

/-- The `while is_process_alive(pid)` loop of `stop_process`
(`src/commands.rs` lines 107-157): elapsed time is the accumulated sleep
time in milliseconds; after more than 10 s a `SIGKILL` is sent; a reaped
`Exited` status breaks the loop; any other status sleeps one second; an
`ECHILD` reap neither breaks nor sleeps.  `none` means the fuel ran out
before the loop exited. -/
def stopLoop (env : ProcEnv) :
    Nat → Nat → Nat → Nat → Option (List StopEvent)
  | 0, _, _, _ => none
  | fuel + 1, k, w, elapsed =>
    if env.alive k then
      let killEvts : List StopEvent :=
        if 10000 < elapsed then [.sigkill] else []
      match env.wait w with
      | .exited =>
        some ([.aliveCheck true] ++ killEvts ++ [.waitpidNohang .exited])
      | .echild =>
        (stopLoop env fuel (k + 1) (w + 1) elapsed).map
          (fun evts => [.aliveCheck true] ++ killEvts ++ [.waitpidNohang .echild] ++ evts)
      | .other =>
        (stopLoop env fuel (k + 1) (w + 1) (elapsed + 1000)).map
          (fun evts =>
            [.aliveCheck true] ++ killEvts ++ [.waitpidNohang .other, .sleepMs 1000] ++ evts)
    else
      some [.aliveCheck false]

/-- The `stop_process` from `src/commands.rs` lines 107-157: send `SIGTERM` once,
then run the polling loop.  `k0` and `w0` are the starting indices into the
environment's check sequences. -/
def stop_process (env : ProcEnv) (fuel : Nat) (k0 w0 : Nat) :
    Option (List StopEvent) :=
  (stopLoop env fuel k0 w0 0).map (fun evts => .sigterm :: evts)

/-- The `pid_str.trim()`. -/
def trimStr (s : Str) : Str :=
  ((s.dropWhile (·.isWhitespace)).reverse.dropWhile (·.isWhitespace)).reverse

/-- The `str::parse::<i32>` on a decimal string (the i32 range is not modelled;
pids fit comfortably). -/
def parseDecimal : Str → Option Int
  | [] => none
  | '-' :: rest =>
    if rest ≠ [] ∧ rest.all (·.isDigit) then
      some (-(rest.foldl (fun a c => a * 10 + (c.toNat - 48)) 0 : Nat))
    else none
  | s =>
    if s ≠ [] ∧ s.all (·.isDigit) then
      some ((s.foldl (fun a c => a * 10 + (c.toNat - 48)) 0 : Nat))
    else none

/-- The disk and process state seen by `stop_target`: the contents of the
target's pid file (if it exists) and the process environment. -/
structure StopWorld where
  pidfile : Option Str
  env : ProcEnv

/-- The `stop_target` from `src/runner.rs` lines 729-785: read the pid file (a
missing file is the error `Task not running`), parse the trimmed pid, stop
the process only if it is still alive, then remove the pid file.  The result
carries the outcome, the final pid file state and the event trace; `none`
means `stop_process` ran out of fuel. -/
def stop_target (fuel : Nat) (w : StopWorld) :
    Option (Except Str Unit × Option Str × List StopEvent) :=
  match w.pidfile with
  | none => some (.error ("Task not running".data), none, [])
  | some pid_str =>
    match parseDecimal (trimStr pid_str) with
    | none => some (.error ("invalid digit found in string".data), some pid_str, [])
    | some _pid =>
      if w.env.alive 0 then
        match stop_process w.env fuel 1 0 with
        | none => none
        | some evts => some (.ok (), none, .aliveCheck true :: evts)
      else
        some (.ok (), none, [.aliveCheck false])

/-! ## Auxiliary definitions used by the statements -/

/-- Total sleep time, in milliseconds, recorded in a stop trace. -/
def sleepTotal (evts : List StopEvent) : Nat :=
  (evts.map (fun e => match e with | .sleepMs n => n | _ => 0)).sum

/-- The `segs.join(sep)`: the text made of the given segments separated by `sep`;
used to quantify over command texts whose placeholders are exactly the
separators. -/
def interleave (sep : Str) : List Str → Str
  | [] => []
  | [x] => x
  | x :: y :: rest => x ++ sep ++ interleave sep (y :: rest)

/-! ## Concrete fixtures -/

/-- A `TargetInfo` with the given tag, name and requirements. -/
def tiOf (tag nm : String) (reqs : List FullyQualifiedName) : TargetInfo :=
  { name := { tag := tag.data, name := nm.data }, requires := reqs,
    variables_ := [], description := none }

/-- A materialized exec command target with the given identity and
requirements. -/
def mkExec (tag nm : String) (reqs : List FullyQualifiedName) : Target :=
  Target.Command (Command.Exec
    { command := "echo".data, default_args := none, env := [],
      target_info := tiOf tag nm reqs, command_info := { daemon := false } })

/-- The fully qualified name `command.exec.r`. -/
def fqnR : FullyQualifiedName := { tag := "command.exec".data, name := "r".data }

/-- The fully qualified name `command.exec.a`. -/
def fqnA : FullyQualifiedName := { tag := "command.exec".data, name := "a".data }

/-- The fully qualified name `command.exec.b`. -/
def fqnB : FullyQualifiedName := { tag := "command.exec".data, name := "b".data }

/-- Watch root: `r` requires `a`. -/
def tR : Target := mkExec ("command.exec") "r" [fqnA]

/-- Dependency target `a` (no requirements). -/
def tA : Target := mkExec ("command.exec") "a" []

/-- Consumer target `b`, which requires the watch root `r`. -/
def tB : Target := mkExec ("command.exec") "b" [fqnR]

/-- Context with targets `r`, `a`, `b` for the watch-engine evaluation. -/
def ctxC7 : Context :=
  { variables_ := [], globals := [],
    targets := [(fqnR, tR), (fqnA, tA), (fqnB, tB)], config_path := [] }

/-- A registered target `command.exec.hello`. -/
def helloTarget : Target := mkExec ("command.exec") "hello" []

/-- The fully qualified name of `helloTarget`. -/
def fqnHello : FullyQualifiedName :=
  { tag := "command.exec".data, name := "hello".data }

/-- Context with the single target `command.exec.hello`. -/
def ctxHello : Context :=
  { variables_ := [], globals := [],
    targets := [(fqnHello, helloTarget)], config_path := [] }

/-- Config-level target info extending the named target. -/
def ctiOf (ext : Option String) : ConfigTargetInfo :=
  { requires := none, extends_ := ext.map (·.data), variables_ := none,
    description := none }

/-- Config-level exec command extending the named target. -/
def cecOf (ext : Option String) : ConfigExecCommand :=
  { command := some ("echo".data), default_args := none, env := none,
    target_info := ctiOf ext, command_info := { daemon := none } }

/-- A configuration whose `extends` references form a two-cycle:
`command.exec.a` extends `b` and `command.exec.b` extends `a`. -/
def cyclicConfig : Config :=
  { globals := none,
    command_exec := [("a".data, cecOf (some ("b"))), ("b".data, cecOf (some ("a")))],
    command_container := [], artifact_container_image := [], artifact_exec := [] }

/-- The registered wrappers of `cyclicConfig`. -/
def cyclicCommands : List (FullyQualifiedName × ConfigWrapper) :=
  (registerConfig cyclicConfig).1

/-- The name map of `cyclicConfig`. -/
def cyclicNameMap : NameMap := (registerConfig cyclicConfig).2

/-- An empty substitution context. -/
def emptyCtx : Context :=
  { variables_ := [], globals := [], targets := [], config_path := [] }

/-- Target info for the staleness fixtures. -/
def tiC3 : TargetInfo := tiOf ("artifact.exec") "copy" []

/-- Filesystem oracle: the pattern `out` matches two files with mtimes 1 and
2; everything else matches nothing. -/
def fsC3 : GlobFs := fun p =>
  if p = "out".data then [.okPath (some 1), .okPath (some 2)] else []

/-- Artifact info with a single output pattern `out`. -/
def aiOneOut : ArtifactInfo :=
  { updates_paths := some ["out".data], if_files_changed := none }

/-- Artifact info with output patterns `out` and `missing` (the second
matches nothing on `fsC3`). -/
def aiOutMissing : ArtifactInfo :=
  { updates_paths := some ["out".data, "missing".data], if_files_changed := none }

/-- A process that answers alive to the first two liveness checks and then
reports dead, with `waitpid` always returning a non-exit status. -/
def envC8 : ProcEnv :=
  { alive := fun k => decide (k < 2), wait := fun _ => .other }

/-- The trace `stop_process` produces on `envC8`. -/
def traceC8 : List StopEvent :=
  [.sigterm, .aliveCheck true, .waitpidNohang .other, .sleepMs 1000,
   .aliveCheck true, .waitpidNohang .other, .sleepMs 1000, .aliveCheck false]

/-- A stop world whose recorded process is already dead. -/
def wDead : StopWorld :=
  { pidfile := some ("42".data),
    env := { alive := fun _ => false, wait := fun _ => .exited } }

/-- A stop world whose recorded process answers alive three times. -/
def wAlive : StopWorld :=
  { pidfile := some ("42".data),
    env := { alive := fun k => decide (k < 3), wait := fun _ => .other } }

/-- The wrapper registered for `command.exec.a` in `cyclicConfig`. -/
def wrapCA : ConfigWrapper := ConfigWrapper.Exec (cecOf (some ("b")))

/-- The wrapper registered for `command.exec.b` in `cyclicConfig`. -/
def wrapCB : ConfigWrapper := ConfigWrapper.Exec (cecOf (some ("a")))

/-- A cleanup stack on which `clean_up_network` was pushed before
`stop_container` (the push order of `ContainerCommand::run`). -/
def cmC4 : CleanupManager Nat :=
  (CleanupManager.push_cleanup
    (CleanupManager.push_cleanup { cleanups := [] } "clean_up_network".data 1)
    "stop_container".data 2)

/-- Substitution context where the current target's variable `x` maps to the
text `{y}` and `y` maps to `boom`. -/
def ctx9 : Context :=
  { variables_ := [(fqnHello, [("x".data, "{y}".data), ("y".data, "boom".data)])],
    globals := [], targets := [], config_path := [] }

/-! ## Theorems -/

/-- On any two wrappers whose `extends` references resolve to each other, the
recursion of `resolve_extends` consumes a level of fuel at every step and
never produces a result: the source, which has no cycle detection, recurses
forever. -/
theorem resolveExtendsF_two_cycle
    (commands : List (FullyQualifiedName × ConfigWrapper)) (nm : NameMap)
    (na nb : FullyQualifiedName) (wa wb : ConfigWrapper) (ea eb : Str)
    (hextA : wa.extends_ = some ea)
    (hlookA : get_lookup_name ea wa.type_tag = nb)
    (hfindA : lookupA commands nb = some wb)
    (hextB : wb.extends_ = some eb)
    (hlookB : get_lookup_name eb wb.type_tag = na)
    (hfindB : lookupA commands na = some wa) :
    ∀ fuel, resolveExtendsF commands nm fuel na wa = none ∧
      resolveExtendsF commands nm fuel nb wb = none := by
  intro fuel
  induction fuel with
  | zero => exact ⟨rfl, rfl⟩
  | succ n ih =>
    constructor
    · rw [resolveExtendsF, hextA]
      simp only [hlookA, hfindA, ih.2, Option.map_none']
    · rw [resolveExtendsF, hextB]
      simp only [hlookB, hfindB, ih.1, Option.map_none']

/-- C1: loading a configuration whose `extends` references form a cycle does
*not* terminate with a loading error: for every fuel bound, the recursion of
`resolve_extends` inside `Context::from_config` is still running (the source
process would abort with a stack overflow, materializing nothing and
reporting nothing). -/
theorem c1_cyclic_extends_never_returns :
    ∀ fuel, Context.from_configF fuel cyclicConfig ("taskrunner.toml".data) = none := by
  intro fuel
  have hcyc := resolveExtendsF_two_cycle cyclicCommands cyclicNameMap
    fqnA fqnB wrapCA wrapCB ("b".data) "a".data
    (by decide) (by decide) (by decide) (by decide) (by decide) (by decide) fuel
  have hreg1 : (registerConfig cyclicConfig).1 = [(fqnA, wrapCA), (fqnB, wrapCB)] := by
    decide
  have hall : resolveAllTargets cyclicCommands cyclicNameMap fuel
      [(fqnA, wrapCA), (fqnB, wrapCB)] [] = none := by
    rw [resolveAllTargets, hcyc.1]
  simp only [Context.from_configF, Option.map_eq_none']
  rw [hreg1]
  exact hall

/-- C2: the textual form of a registered target's fully qualified name is
`command.exec.hello`, the target is registered under exactly that fully
qualified name, and yet `get_target` on that dotted string answers
`NotFound`, because it splits at the *first* dot (`tag = command`,
`name = exec.hello`) while the registered tag is `command.exec`. -/
theorem c2_get_target_dotted_fqn_not_found :
    fqnHello.render = "command.exec.hello".data ∧
    lookupA ctxHello.targets fqnHello = some helloTarget ∧
    ctxHello.get_target ("command.exec.hello".data) = .NotFound := by
  refine ⟨by decide, by decide, by decide⟩

/-- C4: `run_cleanups` executes the pushed entries front to back — the entry
pushed *first* runs first — rather than in reverse push order, and it leaves
the stack empty having yielded each entry exactly once. -/
theorem c4_run_cleanups_executes_in_push_order :
    (cmC4.run_cleanups).1
      = [("clean_up_network".data, 1), ("stop_container".data, 2)] ∧
    (cmC4.run_cleanups).1
      ≠ [("stop_container".data, 2), ("clean_up_network".data, 1)] ∧
    (cmC4.run_cleanups).2.cleanups = [] := by
  refine ⟨by decide, by decide, by decide⟩

/-- C7: on the graph where the root `r` requires `a` and a consumer `b`
requires `r`, the trigger set computed by `get_all` is `{r, a}` — the
*forward* requires closure — with `r` as the `and_then` consumer of `a`; the
target `b`, which transitively requires the root, is absent even though its
`requires` list names `r`. -/
theorem c7_get_all_walks_forward_requires :
    WatchTrigger.get_all 10 tR ctxC7 = some (.ok
      [ { paths := [], target := fqnR, and_then := [] },
        { paths := [], target := fqnA, and_then := [fqnR] } ]) ∧
    tB.target_info.requires = [fqnR] ∧
    fqnB ≠ fqnR ∧ fqnB ≠ fqnA := by
  refine ⟨by rfl, by decide, by decide, by decide⟩

/-- The `sleepTotal` distributes over append. -/
theorem sleepTotal_append (a b : List StopEvent) :
    sleepTotal (a ++ b) = sleepTotal a + sleepTotal b := by
  simp [sleepTotal]

/-- C10: the stop path's pid-file semantics.  Without a pid file the result
is exactly the error `Task not running` (and only then); with a pid file
whose recorded process is no longer alive the stop succeeds, sends no
signal (its whole trace is the one negative liveness check), and the pid
file is removed. -/
theorem c10_stop_target_pidfile_semantics :
    (∀ fuel env, stop_target fuel { pidfile := none, env := env }
        = some (.error ("Task not running".data), none, [])) ∧
    (∀ fuel w s, w.pidfile = some s → (parseDecimal (trimStr s)).isSome →
        w.env.alive 0 = false →
        stop_target fuel w = some (.ok (), none, [.aliveCheck false])) ∧
    (∀ fuel w r, stop_target fuel w = some r →
        r.1 = .error ("Task not running".data) → w.pidfile = none) := by
  refine ⟨?_, ?_, ?_⟩
  · intro fuel env
    rfl
  · intro fuel w s hp hparse halive
    obtain ⟨pf, env⟩ := w
    simp only at hp halive
    subst hp
    obtain ⟨v, hv⟩ := Option.isSome_iff_exists.mp hparse
    simp only [stop_target, hv, halive, Bool.false_eq_true, if_false]
  · intro fuel w r h hr
    obtain ⟨pf, env⟩ := w
    cases pf with
    | none => rfl
    | some s =>
      exfalso
      simp only [stop_target] at h
      cases hpd : parseDecimal (trimStr s) with
      | none =>
        rw [hpd] at h
        simp only [Option.some_inj] at h
        rw [← h] at hr
        simp only at hr
        exact absurd (Except.error.inj hr) (by decide)
      | some v =>
        rw [hpd] at h
        by_cases ha : env.alive 0 = true
        · rw [if_pos ha] at h
          cases hsp : stop_process env fuel 1 0 with
          | none => rw [hsp] at h; exact Option.noConfusion h
          | some evts =>
            rw [hsp] at h
            simp only [Option.some_inj] at h
            rw [← h] at hr
            simp only at hr
            exact Except.noConfusion hr
        · rw [if_neg ha] at h
          simp only [Option.some_inj] at h
          rw [← h] at hr
          simp only at hr
          exact Except.noConfusion hr

/-- Witness for the C10 theorem at concrete inputs: a dead recorded process
is stopped signal-free with the pid file removed, and a missing pid file is
the `Task not running` error. -/
theorem c10_stop_target_witness :
    stop_target 3 wDead = some (.ok (), none, [.aliveCheck false]) ∧
    stop_target 1 { pidfile := none, env := wDead.env }
      = some (.error ("Task not running".data), none, []) := by
  constructor
  · exact c10_stop_target_pidfile_semantics.2.1 3 wDead ("42".data) rfl (by decide) rfl
  · exact c10_stop_target_pidfile_semantics.1 1 wDead.env

/-- Extending a trace that satisfies the stop-policy properties by a prefix
that satisfies them preserves the properties. -/
theorem stopProps_extend (pre evts' : List StopEvent) (el : Nat)
    (hpre1 : StopEvent.sigterm ∉ pre)
    (hpre2 : ∀ n, StopEvent.sleepMs n ∈ pre → n = 1000)
    (hpre3 : StopEvent.sigkill ∈ pre → 10000 < el)
    (h1 : StopEvent.sigterm ∉ evts')
    (h2 : ∀ n, StopEvent.sleepMs n ∈ evts' → n = 1000)
    (h3 : StopEvent.sigkill ∈ evts' → 10000 < el + sleepTotal pre + sleepTotal evts')
    (h4 : evts'.getLast? = some (.aliveCheck false) ∨
      evts'.getLast? = some (.waitpidNohang .exited)) :
    StopEvent.sigterm ∉ pre ++ evts' ∧
    (∀ n, StopEvent.sleepMs n ∈ pre ++ evts' → n = 1000) ∧
    (StopEvent.sigkill ∈ pre ++ evts' → 10000 < el + sleepTotal (pre ++ evts')) ∧
    ((pre ++ evts').getLast? = some (.aliveCheck false) ∨
      (pre ++ evts').getLast? = some (.waitpidNohang .exited)) := by
  have hne : evts' ≠ [] := by
    rcases h4 with h4 | h4 <;> (intro hcon; subst hcon; simp at h4)
  refine ⟨?_, ?_, ?_, ?_⟩
  · intro hc
    rcases List.mem_append.mp hc with hc | hc
    · exact hpre1 hc
    · exact h1 hc
  · intro m hm
    rcases List.mem_append.mp hm with hm | hm
    · exact hpre2 m hm
    · exact h2 m hm
  · intro hk
    rw [sleepTotal_append]
    rcases List.mem_append.mp hk with hk | hk
    · have := hpre3 hk
      omega
    · have := h3 hk
      omega
  · rcases h4 with h4 | h4
    · left
      rw [List.getLast?_append, h4]
      rfl
    · right
      rw [List.getLast?_append, h4]
      rfl

/-- Every successful run of the polling loop of `stop_process` sends no
`SIGTERM` of its own, sleeps exactly one second between polls, escalates to
`SIGKILL` only after more than 10 s of accumulated sleep, and ends with the
process observed dead or reaped. -/
theorem stopLoop_props (env : ProcEnv) :
    ∀ fuel k w elapsed evts, stopLoop env fuel k w elapsed = some evts →
      StopEvent.sigterm ∉ evts ∧
      (∀ n, StopEvent.sleepMs n ∈ evts → n = 1000) ∧
      (StopEvent.sigkill ∈ evts → 10000 < elapsed + sleepTotal evts) ∧
      (evts.getLast? = some (.aliveCheck false) ∨
        evts.getLast? = some (.waitpidNohang .exited)) := by
  intro fuel
  induction fuel with
  | zero =>
    intro k w el evts h
    simp [stopLoop] at h
  | succ n ih =>
    intro k w el evts h
    rw [stopLoop] at h
    by_cases ha : env.alive k = true
    · rw [if_pos ha] at h
      by_cases hel : 10000 < el
      all_goals cases hw : env.wait w
      all_goals rw [hw] at h
      all_goals simp only [hel, if_true, if_false] at h
      case pos.exited =>
        rw [← Option.some_inj.mp h]
        refine ⟨by decide, ?_, ?_, by decide⟩
        · intro m hm
          simp at hm
        · intro _
          have hz : sleepTotal ([StopEvent.aliveCheck true] ++ [StopEvent.sigkill]
              ++ [StopEvent.waitpidNohang WaitRes.exited]) = 0 := by decide
          omega
      case neg.exited =>
        rw [← Option.some_inj.mp h]
        refine ⟨by decide, ?_, ?_, by decide⟩
        · intro m hm
          simp at hm
        · intro hmem
          simp at hmem
      case pos.echild =>
        obtain ⟨evts', hrec, rfl⟩ := Option.map_eq_some'.mp h
        obtain ⟨h1, h2, h3, h4⟩ := ih (k + 1) (w + 1) el evts' hrec
        refine stopProps_extend _ _ _ (by decide) ?_ (fun _ => hel) h1 h2 ?_ h4
        · intro m hm
          simp at hm
        · intro hk
          have := h3 hk
          have hz : sleepTotal ([StopEvent.aliveCheck true] ++ [StopEvent.sigkill]
              ++ [StopEvent.waitpidNohang WaitRes.echild]) = 0 := by decide
          omega
      case neg.echild =>
        obtain ⟨evts', hrec, rfl⟩ := Option.map_eq_some'.mp h
        obtain ⟨h1, h2, h3, h4⟩ := ih (k + 1) (w + 1) el evts' hrec
        refine stopProps_extend _ _ _ (by decide) ?_ ?_ h1 h2 ?_ h4
        · intro m hm
          simp at hm
        · intro hk
          simp at hk
        · intro hk
          have := h3 hk
          have hz : sleepTotal ([StopEvent.aliveCheck true] ++ []
              ++ [StopEvent.waitpidNohang WaitRes.echild]) = 0 := by decide
          omega
      case pos.other =>
        obtain ⟨evts', hrec, rfl⟩ := Option.map_eq_some'.mp h
        obtain ⟨h1, h2, h3, h4⟩ := ih (k + 1) (w + 1) (el + 1000) evts' hrec
        refine stopProps_extend _ _ _ (by decide) ?_ (fun _ => hel) h1 h2 ?_ h4
        · intro m hm
          simp at hm
          omega
        · intro hk
          have := h3 hk
          have hz : sleepTotal ([StopEvent.aliveCheck true] ++ [StopEvent.sigkill]
              ++ [StopEvent.waitpidNohang WaitRes.other, StopEvent.sleepMs 1000]) = 1000 := by
            decide
          omega
      case neg.other =>
        obtain ⟨evts', hrec, rfl⟩ := Option.map_eq_some'.mp h
        obtain ⟨h1, h2, h3, h4⟩ := ih (k + 1) (w + 1) (el + 1000) evts' hrec
        refine stopProps_extend _ _ _ (by decide) ?_ ?_ h1 h2 ?_ h4
        · intro m hm
          simp at hm
          omega
        · intro hk
          simp at hk
        · intro hk
          have := h3 hk
          have hz : sleepTotal ([StopEvent.aliveCheck true] ++ []
              ++ [StopEvent.waitpidNohang WaitRes.other, StopEvent.sleepMs 1000]) = 1000 := by
            decide
          omega
    · rw [if_neg ha] at h
      rw [← Option.some_inj.mp h]
      refine ⟨by decide, ?_, ?_, by decide⟩
      · intro m hm
        simp at hm
      · intro hmem
        simp at hmem

/-- C8 (amended): stopping a running daemon reads the pid from the pid file,
verifies liveness, sends `SIGTERM` exactly once, polls liveness with
*one-second* sleeps between polls, escalates to `SIGKILL` only after more
than 10 s of accumulated sleep, reaps with `WNOHANG`, and finishes with the
process observed dead (or reaped) and the pid file removed. -/
theorem c8_stop_policy (fuel : Nat) (w : StopWorld) (s : Str)
    (res : Except Str Unit) (pf : Option Str) (trace : List StopEvent)
    (hp : w.pidfile = some s) (hparse : (parseDecimal (trimStr s)).isSome)
    (halive : w.env.alive 0 = true)
    (h : stop_target fuel w = some (res, pf, trace)) :
    res = .ok () ∧ pf = none ∧
    trace.count .sigterm = 1 ∧
    (∀ n, StopEvent.sleepMs n ∈ trace → n = 1000) ∧
    (StopEvent.sigkill ∈ trace → 10000 < sleepTotal trace) ∧
    (trace.getLast? = some (.aliveCheck false) ∨
      trace.getLast? = some (.waitpidNohang .exited)) := by
  obtain ⟨pfw, env⟩ := w
  simp only at hp halive
  subst hp
  obtain ⟨v, hv⟩ := Option.isSome_iff_exists.mp hparse
  simp only [stop_target, hv, halive, if_true] at h
  cases hsp : stop_process env fuel 1 0 with
  | none => rw [hsp] at h; exact Option.noConfusion h
  | some evts =>
    rw [hsp] at h
    simp only [Option.some_inj, Prod.mk.injEq] at h
    obtain ⟨hres, hpf, htrace⟩ := h
    subst hres hpf
    obtain ⟨evts0, hloop, hevts⟩ := Option.map_eq_some'.mp hsp
    subst hevts
    obtain ⟨h1, h2, h3, h4⟩ := stopLoop_props env fuel 1 0 0 evts0 hloop
    have hne : evts0 ≠ [] := by
      rcases h4 with h4 | h4 <;> (intro hcon; subst hcon; simp at h4)
    subst htrace
    refine ⟨rfl, rfl, ?_, ?_, ?_, ?_⟩
    · simp only [List.count_cons, List.count_eq_zero.mpr h1]
      decide
    · intro m hm
      simp only [List.mem_cons] at hm
      rcases hm with hm | hm | hm
      · exact StopEvent.noConfusion hm
      · exact StopEvent.noConfusion hm
      · exact h2 m hm
    · intro hk
      simp only [List.mem_cons] at hk
      rcases hk with hk | hk | hk
      · exact absurd hk (by decide)
      · exact absurd hk (by decide)
      · have := h3 hk
        have hz : sleepTotal (StopEvent.aliveCheck true :: StopEvent.sigterm :: evts0)
            = sleepTotal evts0 := by
          simp [sleepTotal]
        omega
    · have : (StopEvent.aliveCheck true :: StopEvent.sigterm :: evts0).getLast?
          = evts0.getLast? := by
        have : StopEvent.aliveCheck true :: StopEvent.sigterm :: evts0
            = [StopEvent.aliveCheck true, StopEvent.sigterm] ++ evts0 := by simp
        rw [this, List.getLast?_append]
        rcases h4 with h4 | h4 <;> rw [h4] <;> rfl
      rw [this]
      exact h4

/-- Witness for the C8 policy theorem on a concrete responsive process
(alive for three checks, then dead). -/
theorem c8_stop_policy_witness :
    ((.ok () : Except Str Unit) = .ok ()) ∧ (none : Option Str) = none ∧
    ([StopEvent.aliveCheck true, .sigterm, .aliveCheck true, .waitpidNohang .other,
      .sleepMs 1000, .aliveCheck true, .waitpidNohang .other, .sleepMs 1000,
      .aliveCheck false].count .sigterm = 1) ∧
    (∀ n, StopEvent.sleepMs n ∈
      [StopEvent.aliveCheck true, .sigterm, .aliveCheck true, .waitpidNohang .other,
       .sleepMs 1000, .aliveCheck true, .waitpidNohang .other, .sleepMs 1000,
       .aliveCheck false] → n = 1000) ∧
    (StopEvent.sigkill ∈
      [StopEvent.aliveCheck true, .sigterm, .aliveCheck true, .waitpidNohang .other,
       .sleepMs 1000, .aliveCheck true, .waitpidNohang .other, .sleepMs 1000,
       .aliveCheck false] → 10000 <
      sleepTotal [StopEvent.aliveCheck true, .sigterm, .aliveCheck true,
        .waitpidNohang .other, .sleepMs 1000, .aliveCheck true, .waitpidNohang .other,
        .sleepMs 1000, .aliveCheck false]) ∧
    (([StopEvent.aliveCheck true, .sigterm, .aliveCheck true, .waitpidNohang .other,
       .sleepMs 1000, .aliveCheck true, .waitpidNohang .other, .sleepMs 1000,
       .aliveCheck false].getLast? = some (.aliveCheck false)) ∨
     ([StopEvent.aliveCheck true, .sigterm, .aliveCheck true, .waitpidNohang .other,
       .sleepMs 1000, .aliveCheck true, .waitpidNohang .other, .sleepMs 1000,
       .aliveCheck false].getLast? = some (.waitpidNohang .exited))) := by
  exact c8_stop_policy 6 wAlive ("42".data) (.ok ()) none
    [StopEvent.aliveCheck true, .sigterm, .aliveCheck true, .waitpidNohang .other,
     .sleepMs 1000, .aliveCheck true, .waitpidNohang .other, .sleepMs 1000,
     .aliveCheck false] rfl (by decide) rfl (by rfl)

/-- C8 counterexample to the claim as stated: on a process that answers two
liveness checks before dying, the stop loop's trace contains a one-second
sleep, so it does not poll every 100 ms. -/
theorem c8_counterexample_poll_interval :
    stop_process envC8 5 0 0 = some traceC8 ∧
    StopEvent.sleepMs 1000 ∈ traceC8 ∧
    ¬(∀ n, StopEvent.sleepMs n ∈ traceC8 → n = 100) := by
  refine ⟨by rfl, by decide, ?_⟩
  intro hcl
  exact absurd (hcl 1000 (by decide)) (by decide)

/-- The `findChar` misses characters that do not occur. -/
theorem findChar_eq_none {c : Char} {s : Str} (h : c ∉ s) : findChar c s = none := by
  induction s with
  | nil => rfl
  | cons x xs ih =>
    rw [findChar]
    rw [if_neg (by intro hx; exact h (hx ▸ List.mem_cons_self x xs))]
    rw [ih (fun hm => h (List.mem_cons_of_mem x hm))]
    rfl

/-- A text without an opening brace is scanned without any lookup or
change. -/
theorem scanGo_no_brace (look : Str → Option Str) (rest resolved : Str) (flag : Bool)
    (h : '{' ∉ rest) : scanGo look rest resolved flag = .ok (resolved, flag) := by
  cases rest with
  | nil => rw [scanGo]
  | cons c cs =>
    rw [scanGo, findChar_eq_none h]

/-- Run-time expansion returns a brace-free text unchanged (no arguments were
supplied). -/
theorem resolve_substitutions_no_brace (ctx : Context) (esc : Str → Str) (s : Str)
    (tn : FullyQualifiedName) (outs : OutputsManager) (h : '{' ∉ s) :
    ctx.resolve_substitutions esc s tn outs = .ok s := by
  simp only [Context.resolve_substitutions, Context.resolve_substitutions_inner,
    scanGo_no_brace _ _ _ _ h]
  rfl

/-- Expanding a list of brace-free paths is the identity. -/
theorem mapM_resolve_no_brace (ctx : Context) (esc : Str → Str)
    (tn : FullyQualifiedName) (outs : OutputsManager) :
    ∀ ps : List Str, (∀ p ∈ ps, '{' ∉ p) →
      ps.mapM (fun p => ctx.resolve_substitutions esc p tn outs) = .ok ps := by
  intro ps
  induction ps with
  | nil => intro _; rfl
  | cons p rest ih =>
    intro h
    rw [List.mapM_cons]
    rw [resolve_substitutions_no_brace ctx esc p tn outs (h p (List.mem_cons_self p rest))]
    rw [ih (fun q hq => h q (List.mem_cons_of_mem p hq))]
    rfl

/-- The keep-the-later step agrees with `Nat.max`. -/
theorem lastRunFold_time (a t : Nat) :
    lastRunFold (some (.Time a)) (.Time t) = some (.Time (Nat.max a t)) := by
  rw [lastRunFold]
  by_cases hab : a < t
  · rw [if_pos hab]
    exact congrArg (fun x => some (LastRun.Time x)) (Nat.max_eq_right (Nat.le_of_lt hab)).symm
  · rw [if_neg hab]
    exact congrArg (fun x => some (LastRun.Time x)) (Nat.max_eq_left (Nat.le_of_not_lt hab)).symm

/-- Folding `lastRunFold` over pure times computes their running maximum. -/
theorem lastRunFold_times (ts : List Nat) :
    ∀ a, (ts.map LastRun.Time).foldl lastRunFold (some (.Time a))
      = some (.Time (ts.foldl Nat.max a)) := by
  induction ts with
  | nil => intro a; rfl
  | cons t tl ih =>
    intro a
    rw [List.map_cons, List.foldl_cons, List.foldl_cons, lastRunFold_time]
    exact ih (Nat.max a t)

/-- The `latest_update_time` on a list of pure times is their maximum (it is the
*latest*, not the earliest). -/
theorem latest_update_time_times (ts : List Nat) :
    latest_update_time (ts.map LastRun.Time)
      = match ts with
        | [] => LastRun.Never
        | t :: tl => LastRun.Time (tl.foldl Nat.max t) := by
  cases ts with
  | nil => rfl
  | cons t tl =>
    rw [latest_update_time, List.map_cons, List.foldl_cons]
    have h1 : lastRunFold none (.Time t) = some (.Time t) := rfl
    rw [h1, lastRunFold_times]
    rfl

/-- On entries that all carry readable mtimes, the per-entry conversion of
`update_times_of_glob` produces exactly the `Time`s of those mtimes. -/
theorem map_conv_all_ok : ∀ l : List GlobEntry, (∀ e ∈ l, (getMTime e).isSome) →
    l.map (fun e =>
      match e with
      | GlobEntry.okPath (some t) => LastRun.Time t
      | GlobEntry.okPath none => LastRun.Never
      | GlobEntry.errEntry => LastRun.Never)
    = (l.filterMap getMTime).map LastRun.Time := by
  intro l
  induction l with
  | nil => intro _; rfl
  | cons e rest ih =>
    intro h
    obtain ⟨t, ht⟩ := Option.isSome_iff_exists.mp (h e (List.mem_cons_self e rest))
    have hee : e = GlobEntry.okPath (some t) := by
      cases e with
      | okPath m =>
        cases m with
        | some x => simp [getMTime] at ht; rw [ht]
        | none => simp [getMTime] at ht
      | errEntry => simp [getMTime] at ht
    subst hee
    rw [List.map_cons, List.filterMap_cons]
    simp only [getMTime, List.map_cons]
    congr 1
    exact ih (fun e2 hm => h e2 (List.mem_cons_of_mem _ hm))

/-- Under fully readable entries, the glob reading is the time list of the
entries. -/
theorem update_times_all_ok (fs : GlobFs) (p : Str)
    (h : ∀ e ∈ fs p, (getMTime e).isSome) :
    update_times_of_glob fs p = (((fs p).filterMap getMTime).map LastRun.Time) := by
  rw [update_times_of_glob]
  exact map_conv_all_ok (fs p) h

/-- Flattening the per-path readings under fully readable entries gives the
`Time`s of all matched mtimes. -/
theorem flatten_update_times_all_ok (fs : GlobFs) :
    ∀ ps : List Str, (∀ p ∈ ps, ∀ e ∈ fs p, (getMTime e).isSome) →
      (ps.map (update_times_of_glob fs)).flatten
        = (((ps.map fs).flatten).filterMap getMTime).map LastRun.Time := by
  intro ps
  induction ps with
  | nil => intro _; rfl
  | cons p rest ih =>
    intro h
    rw [List.map_cons, List.flatten_cons, List.map_cons, List.flatten_cons,
      List.filterMap_append, List.map_append]
    rw [update_times_all_ok fs p (h p (List.mem_cons_self p rest))]
    congr 1
    exact ih (fun q hq => h q (List.mem_cons_of_mem _ hq))

/-- With `updates_paths` set, brace-free patterns and fully readable matched
entries, the staleness reading is the maximum of the matched mtimes (`Never`
for no match at all). -/
theorem last_run_updates_max (fs : GlobFs) (sentinel : Option Nat) (esc : Str → Str)
    (ti : TargetInfo) (ai : ArtifactInfo) (ctx : Context) (outs : OutputsManager)
    (ps : List Str) (hup : ai.updates_paths = some ps)
    (hbr : ∀ p ∈ ps, '{' ∉ p)
    (hok : ∀ p ∈ ps, ∀ e ∈ fs p, (getMTime e).isSome) :
    last_run fs sentinel esc ti ai ctx outs = .ok
      (match ((ps.map fs).flatten).filterMap getMTime with
       | [] => LastRun.Never
       | t :: tl => LastRun.Time (tl.foldl Nat.max t)) := by
  rw [last_run.eq_def, hup]
  simp only [latest_update_time_of_paths]
  rw [mapM_resolve_no_brace ctx esc ti.name outs ps hbr]
  show Except.ok (latest_update_time ((ps.map (update_times_of_glob fs)).flatten)) = _
  rw [flatten_update_times_all_ok fs ps hok, latest_update_time_times]

/-- Without `updates_paths` the staleness reading is the sentinel mtime,
`Never` when the sentinel file does not exist. -/
theorem last_run_sentinel (fs : GlobFs) (sentinel : Option Nat) (esc : Str → Str)
    (ti : TargetInfo) (ai : ArtifactInfo) (ctx : Context) (outs : OutputsManager)
    (hup : ai.updates_paths = none) :
    last_run fs sentinel esc ti ai ctx outs = .ok
      (match sentinel with
       | some t => LastRun.Time t
       | none => LastRun.Never) := by
  rw [last_run.eq_def, hup]
  cases sentinel <;> rfl

/-- C3 (amended): with `updates_paths` set and brace-free patterns whose
matched entries are all readable, the staleness oracle's last-run time is
the *maximum* mtime across all files matched by the output globs, and
`Never` exactly when no file matches at all; without `updates_paths` it is
the mtime of the `last_run` sentinel, `Never` when the sentinel does not
exist. -/
theorem c3_last_run_is_max_of_outputs :
    (∀ (fs : GlobFs) (sentinel : Option Nat) (esc : Str → Str) (ti : TargetInfo)
      (ai : ArtifactInfo) (ctx : Context) (outs : OutputsManager) (ps : List Str),
      ai.updates_paths = some ps →
      (∀ p ∈ ps, '{' ∉ p) →
      (∀ p ∈ ps, ∀ e ∈ fs p, (getMTime e).isSome) →
      last_run fs sentinel esc ti ai ctx outs = .ok
        (match ((ps.map fs).flatten).filterMap getMTime with
         | [] => LastRun.Never
         | t :: tl => LastRun.Time (tl.foldl Nat.max t))) ∧
    (∀ (fs : GlobFs) (sentinel : Option Nat) (esc : Str → Str) (ti : TargetInfo)
      (ai : ArtifactInfo) (ctx : Context) (outs : OutputsManager),
      ai.updates_paths = none →
      last_run fs sentinel esc ti ai ctx outs = .ok
        (match sentinel with
         | some t => LastRun.Time t
         | none => LastRun.Never)) :=
  ⟨last_run_updates_max, last_run_sentinel⟩

/-- C3 counterexample to the claim as stated: on a pattern matching two
files with mtimes 1 and 2 the code reads `Time 2` (the maximum) where the
claimed minimum is `Time 1`; adding a pattern that matches nothing the code
still reads `Time 2` where the claim requires `Never`. -/
theorem c3_counterexample_min_and_missing :
    (last_run fsC3 none escModel tiC3 aiOneOut emptyCtx { outputs := [] }
        = .ok (.Time 2) ∧
      lastRunSpecMin fsC3 none (some ["out".data]) = .Time 1 ∧
      (LastRun.Time 2 ≠ LastRun.Time 1)) ∧
    (last_run fsC3 none escModel tiC3 aiOutMissing emptyCtx { outputs := [] }
        = .ok (.Time 2) ∧
      lastRunSpecMin fsC3 none (some ["out".data, "missing".data]) = .Never ∧
      (LastRun.Time 2 ≠ LastRun.Never)) := by
  refine ⟨⟨?_, by decide, by decide⟩, ⟨?_, by decide, by decide⟩⟩
  · exact last_run_updates_max fsC3 none escModel tiC3 aiOneOut emptyCtx
      { outputs := [] } ["out".data] rfl (by decide) (by decide)
  · exact last_run_updates_max fsC3 none escModel tiC3 aiOutMissing emptyCtx
      { outputs := [] } ["out".data, "missing".data] rfl (by decide) (by decide)

/-- Witness for the amended C3 theorem: on the two-file fixture the oracle
reads `Time 2`, and without `updates_paths` it reads the sentinel. -/
theorem c3_last_run_witness :
    last_run fsC3 none escModel tiC3 aiOneOut emptyCtx { outputs := [] }
      = .ok (.Time 2) ∧
    last_run fsC3 (some 7) escModel tiC3
      { updates_paths := none, if_files_changed := none } emptyCtx { outputs := [] }
      = .ok (.Time 7) := by
  constructor
  · exact c3_last_run_is_max_of_outputs.1 fsC3 none escModel tiC3 aiOneOut emptyCtx
      { outputs := [] } ["out".data] rfl (by decide) (by decide)
  · exact c3_last_run_is_max_of_outputs.2 fsC3 (some 7) escModel tiC3
      { updates_paths := none, if_files_changed := none } emptyCtx { outputs := [] } rfl

/-- The `findChar` skips a prefix free of the sought character. -/
theorem findChar_append {c : Char} {a : Str} (h : c ∉ a) (b : Str) :
    findChar c (a ++ b) = (findChar c b).map (· + a.length) := by
  induction a with
  | nil =>
    simp only [List.nil_append, List.length_nil]
    cases findChar c b <;> simp
  | cons x xs ih =>
    rw [List.cons_append, findChar,
      if_neg (by intro hx; exact h (hx ▸ List.mem_cons_self x xs))]
    rw [ih (fun hm => h (List.mem_cons_of_mem x hm))]
    cases findChar c b <;> simp <;> omega

/-- The `replaceAll` leaves a text untouched when the pattern's first character
does not occur in it. -/
theorem replaceAll_head_not_mem {hc : Char} {pt repl : Str} :
    ∀ {s : Str}, hc ∉ s → replaceAll (hc :: pt) repl s = s := by
  intro s
  induction s with
  | nil => intro _; rw [replaceAll]
  | cons c cs ih =>
    intro h
    rw [replaceAll]
    rw [if_neg ?_]
    · rw [ih (fun hm => h (List.mem_cons_of_mem c hm))]
    · rintro ⟨-, hpre⟩
      simp only [List.isPrefixOf, Bool.and_eq_true, beq_iff_eq] at hpre
      exact h (by rw [hpre.1]; exact List.mem_cons_self c cs)

/-- The `replaceAll` passes over a prefix free of the pattern's first
character. -/
theorem replaceAll_append_left {hc : Char} {pt repl : Str} :
    ∀ {s : Str}, hc ∉ s → ∀ t,
      replaceAll (hc :: pt) repl (s ++ t) = s ++ replaceAll (hc :: pt) repl t := by
  intro s
  induction s with
  | nil => intro _ t; rfl
  | cons c cs ih =>
    intro h t
    rw [List.cons_append, replaceAll]
    rw [if_neg ?_]
    · rw [ih (fun hm => h (List.mem_cons_of_mem c hm)) t]
      rfl
    · rintro ⟨-, hpre⟩
      simp only [List.isPrefixOf, Bool.and_eq_true, beq_iff_eq] at hpre
      exact h (by rw [hpre.1]; exact List.mem_cons_self c cs)

/-- The `replaceAll` consumes the pattern at the front, emitting the replacement
and continuing after it (replacement text is never rescanned). -/
theorem replaceAll_consume (pat repl t : Str) (hne : pat ≠ []) :
    replaceAll pat repl (pat ++ t) = repl ++ replaceAll pat repl t := by
  cases pat with
  | nil => exact absurd rfl hne
  | cons hc pt =>
    rw [List.cons_append, replaceAll]
    rw [if_pos ?_]
    · congr 1
      have : (hc :: pt).length ≤ (pt ++ t).length + 1 := by simp
      show replaceAll (hc :: pt) repl ((hc :: (pt ++ t)).drop (hc :: pt).length) = _
      have hd : (hc :: (pt ++ t)) = (hc :: pt) ++ t := by simp
      rw [hd, List.drop_left]
    · refine ⟨hne, ?_⟩
      have : (hc :: pt) <+: (hc :: pt) ++ t := List.prefix_append _ _
      have h2 : (hc :: pt) ++ t = hc :: (pt ++ t) := by simp
      rw [← h2]
      exact List.isPrefixOf_iff_prefix.mpr this

/-- A pattern containing a character which a text lacks never occurs in that
text: `replaceAll` is the identity there. -/
theorem replaceAll_mem_not_mem {x : Char} {pat repl : Str} (hx : x ∈ pat) :
    ∀ {s : Str}, x ∉ s → replaceAll pat repl s = s := by
  intro s
  induction s with
  | nil => intro _; rw [replaceAll.eq_def]
  | cons c cs ih =>
    intro h
    rw [replaceAll]
    rw [if_neg ?_]
    · rw [ih (fun hm => h (List.mem_cons_of_mem c hm))]
    · rintro ⟨-, hpre⟩
      have hsub := ( List.isPrefixOf_iff_prefix.mp hpre).subset
      exact h (hsub hx)

/-- Replacement confined to the left part: when the pattern ends in a
character which the right part lacks, every occurrence lies in the left
part. -/
theorem replaceAll_append_right (pat repl : Str) (hlast : pat.getLast? = some '}')
    (B : Str) (hB : '}' ∉ B) :
    ∀ X, replaceAll pat repl (X ++ B) = replaceAll pat repl X ++ B := by
  have hne : pat ≠ [] := by
    intro hcon
    subst hcon
    simp at hlast
  have hmem : '}' ∈ pat := by
    have := List.getLast?_eq_getLast pat hne
    rw [this] at hlast
    have := Option.some_inj.mp hlast
    rw [← this]
    exact List.getLast_mem hne
  have main : ∀ n X, X.length ≤ n →
      replaceAll pat repl (X ++ B) = replaceAll pat repl X ++ B := by
    intro n
    induction n with
    | zero =>
      intro X hX
      have : X = [] := List.eq_nil_of_length_eq_zero (Nat.le_zero.mp hX)
      subst this
      rw [List.nil_append, replaceAll_mem_not_mem hmem hB, replaceAll.eq_def]
      rfl
    | succ n ih =>
      intro X hX
      cases X with
      | nil =>
        rw [List.nil_append, replaceAll_mem_not_mem hmem hB, replaceAll.eq_def]
        rfl
      | cons c cs =>
        by_cases hpre : pat.isPrefixOf (c :: cs ++ B) = true
        · have hplen : pat.length ≤ (c :: cs).length := by
            by_contra hlen
            push_neg at hlen
            have hpfx := List.isPrefixOf_iff_prefix.mp hpre
            have htake := List.prefix_iff_eq_take.mp hpfx
            have hlen2 : pat.length ≤ (c :: cs ++ B).length := hpfx.length_le
            have hsplit : pat
                = (c :: cs) ++ B.take (pat.length - (c :: cs).length) := by
              conv_lhs => rw [htake]
              rw [List.take_append_eq_append_take,
                List.take_of_length_le (Nat.le_of_lt hlen)]
            have hTne : B.take (pat.length - (c :: cs).length) ≠ [] := by
              intro hcon
              have hTlen := congrArg List.length hcon
              rw [List.length_take] at hTlen
              simp only [List.length_nil] at hTlen
              rw [List.length_append] at hlen2
              omega
            obtain ⟨t, ht⟩ := Option.isSome_iff_exists.mp
              (List.getLast?_isSome.mpr hTne)
            have hplast : pat.getLast? = some t := by
              rw [hsplit, List.getLast?_append, ht]
              rfl
            rw [hplast] at hlast
            have htb : t = '}' := Option.some_inj.mp hlast
            have : ('}' : Char) ∈ B := by
              rw [← htb]
              exact List.take_subset _ _ (List.mem_of_mem_getLast? (by rw [ht]; rfl))
            exact hB this
          have hpreX : pat.isPrefixOf (c :: cs) = true := by
            have hpfx := List.isPrefixOf_iff_prefix.mp hpre
            have htake := List.prefix_iff_eq_take.mp hpfx
            rw [List.take_append_of_le_length hplen] at htake
            exact List.isPrefixOf_iff_prefix.mpr ( List.prefix_iff_eq_take.mpr htake)
          rw [List.cons_append, replaceAll, if_pos ⟨hne, by rw [← List.cons_append]; exact hpre⟩]
          rw [replaceAll, if_pos ⟨hne, hpreX⟩]
          have hdrop : (c :: (cs ++ B)).drop pat.length
              = (c :: cs).drop pat.length ++ B := by
            rw [← List.cons_append]
            exact List.drop_append_of_le_length hplen
          rw [hdrop]
          have hlen3 : ((c :: cs).drop pat.length).length ≤ n := by
            simp only [List.length_drop, List.length_cons] at hX ⊢
            have hp1 : 1 ≤ pat.length := by
              cases pat with
              | nil => exact absurd rfl hne
              | cons p ps => simp
            omega
          rw [ih _ hlen3, List.append_assoc]
        · have hpreX : ¬pat.isPrefixOf (c :: cs) = true := by
            intro hcon
            have := ( List.isPrefixOf_iff_prefix.mp hcon).trans ( List.prefix_append (c :: cs) B)
            exact hpre ( List.isPrefixOf_iff_prefix.mpr this)
          rw [List.cons_append, replaceAll,
            if_neg (by rintro ⟨-, hcon⟩; rw [← List.cons_append] at hcon; exact hpre hcon)]
          rw [replaceAll, if_neg (by rintro ⟨-, hcon⟩; exact hpreX hcon)]
          have hlen3 : cs.length ≤ n := by
            simp at hX
            omega
          rw [ih _ hlen3, List.cons_append]
  intro X
  exact main X.length X (Nat.le_refl _)

/-- A text without a closing brace is scanned without any lookup or change
(the first brace pair is never completed). -/
theorem scanGo_no_close (look : Str → Option Str) (rest resolved : Str) (flag : Bool)
    (h : '}' ∉ rest) : scanGo look rest resolved flag = .ok (resolved, flag) := by
  cases rest with
  | nil => rw [scanGo]
  | cons c cs =>
    rw [scanGo]
    cases hf : findChar '{' (c :: cs) with
    | none => rfl
    | some f =>
      have hdrop : ('}' : Char) ∉ (c :: cs).drop f :=
        fun hm => h (List.mem_of_mem_drop hm)
      simp only [findChar_eq_none hdrop]

/-- A brace-free text has no scanned placeholders. -/
theorem scanPlaceholders_no_brace {rest : Str} (h : '{' ∉ rest) :
    scanPlaceholders rest = [] := by
  cases rest with
  | nil => rw [scanPlaceholders]
  | cons c cs => rw [scanPlaceholders, findChar_eq_none h]

/-- One full iteration of the scanning loop on a text whose next placeholder
is `v`: find the braces, look `v` up, replace every occurrence of the
placeholder in the accumulated result, and continue after the closing
brace. -/
theorem scanGo_step (look : Str → Option Str) (s : Str) (hs : '{' ∉ s) (v : Str)
    (hv : '}' ∉ v) (T resolved : Str) (flag : Bool) :
    scanGo look (s ++ ('{' :: v ++ '}' :: T)) resolved flag
      = match look v with
        | none => .error ("Variable <".data ++ v ++ "> not found".data)
        | some repl =>
          scanGo look T (replaceAll ('{' :: v ++ ['}']) repl resolved)
            (flag || isArgsVar v) := by
  have hfind1 : findChar '{' (s ++ ('{' :: v ++ '}' :: T)) = some s.length := by
    rw [findChar_append hs, List.cons_append, findChar, if_pos rfl]
    simp
  have hdrop1 : (s ++ ('{' :: v ++ '}' :: T)).drop s.length = '{' :: v ++ '}' :: T :=
    List.drop_left s _
  have hfind2 : findChar '}' ('{' :: v ++ '}' :: T) = some (v.length + 1) := by
    rw [List.cons_append, findChar, if_neg (by decide), findChar_append hv, findChar,
      if_pos rfl]
    simp [Nat.add_comm]
  have hvext : ((s ++ ('{' :: v ++ '}' :: T)).drop (s.length + 1)).take (v.length + 1 - 1)
      = v := by
    have hsplit : s ++ ('{' :: v ++ '}' :: T) = (s ++ ['{']) ++ (v ++ '}' :: T) := by
      simp
    rw [hsplit, List.drop_left' (by simp), Nat.add_sub_cancel, List.take_left]
  have hrest : (s ++ ('{' :: v ++ '}' :: T)).drop (s.length + (v.length + 1) + 1) = T := by
    have hsplit : s ++ ('{' :: v ++ '}' :: T) = (s ++ ('{' :: v ++ ['}'])) ++ T := by
      simp
    rw [hsplit, List.drop_left' ?_]
    simp
    omega
  cases hL : s ++ ('{' :: v ++ '}' :: T) with
  | nil =>
    exfalso
    cases s <;> simp at hL
  | cons c cs =>
    rw [scanGo, ← hL]
    simp only [hfind1, hdrop1, hfind2, hvext, hrest]

/-- Characters absent from the separator and from every segment are absent
from the interleaving. -/
theorem not_mem_interleave {c : Char} {sep : Str} (hsep : c ∉ sep) :
    ∀ segs : List Str, (∀ x ∈ segs, c ∉ x) → c ∉ interleave sep segs := by
  intro segs
  induction segs with
  | nil => intro _; simp [interleave]
  | cons x rest ih =>
    intro h
    cases rest with
    | nil =>
      rw [interleave]
      exact h x (List.mem_cons_self x [])
    | cons y r =>
      rw [interleave]
      intro hmem
      rcases List.mem_append.mp hmem with hm | hm
      · rcases List.mem_append.mp hm with hm2 | hm2
        · exact h x (List.mem_cons_self _ _) hm2
        · exact hsep hm2
      · exact ih (fun z hz => h z (List.mem_cons_of_mem _ hz)) hm

/-- Replacing the separator by another string maps one interleaving to the
other, in a single left-to-right pass (the replacement text itself is never
rescanned). -/
theorem replaceAll_interleave {hc : Char} {pt repl : Str} :
    ∀ segs : List Str, (∀ x ∈ segs, hc ∉ x) →
      replaceAll (hc :: pt) repl (interleave (hc :: pt) segs)
        = interleave repl segs := by
  intro segs
  induction segs with
  | nil =>
    intro _
    rw [interleave, interleave, replaceAll]
  | cons x rest ih =>
    intro h
    cases rest with
    | nil =>
      rw [interleave, interleave]
      exact replaceAll_head_not_mem (h x (List.mem_cons_self x []))
    | cons y r =>
      rw [interleave, interleave, List.append_assoc, List.append_assoc]
      rw [replaceAll_append_left (h x (List.mem_cons_self _ _))]
      rw [replaceAll_consume _ _ _ (by simp)]
      rw [ih (fun z hz => h z (List.mem_cons_of_mem _ hz))]

/-- Scanning an interleaving of brace-free segments by `args` placeholders
against a brace-free accumulated result changes nothing further: every
lookup hits `args` and every replacement misses. -/
theorem scanGo_interleave_args (look : Str → Option Str) (eas : Str)
    (hlook : look ("args".data) = some eas) :
    ∀ segs : List Str, segs ≠ [] → (∀ x ∈ segs, '{' ∉ x) →
    ∀ resolved : Str, '{' ∉ resolved →
      scanGo look (interleave ("{args}".data) segs) resolved true
        = .ok (resolved, true) := by
  intro segs
  induction segs with
  | nil => intro h; exact absurd rfl h
  | cons x rest ih =>
    intro _ hbr resolved hres
    cases rest with
    | nil =>
      rw [interleave]
      exact scanGo_no_brace look x resolved true (hbr x (List.mem_cons_self x []))
    | cons y r =>
      rw [interleave, List.append_assoc]
      rw [show (("{args}".data : Str) ++ interleave ("{args}".data) (y :: r))
            = ('{' :: "args".data ++ '}' :: interleave ("{args}".data) (y :: r)) from rfl]
      rw [scanGo_step look x (hbr x (List.mem_cons_self _ _)) "args".data (by decide)
        (interleave ("{args}".data) (y :: r)) resolved true]
      rw [hlook]
      show scanGo look (interleave ("{args}".data) (y :: r))
          (replaceAll ('{' :: "args".data ++ ['}']) eas resolved)
          (true || isArgsVar ("args".data))
        = .ok (resolved, true)
      rw [List.cons_append, replaceAll_head_not_mem hres]
      rw [show (true || isArgsVar ("args".data)) = true from rfl]
      exact ih (by simp) (fun z hz => hbr z (List.mem_cons_of_mem _ hz)) resolved hres

/-- The combined lookup answers the `args` placeholder with the escaped
argument string. -/
theorem lookupRepl_args (eas : Str) (ctx : Context) (tn : FullyQualifiedName)
    (outs : OutputsManager) :
    lookupRepl eas ctx tn outs ("args".data) = some eas := by
  have hv : Variable.from_string ("args".data) = .Simple ("args".data) := by decide
  simp [lookupRepl, hv]

/-- Run-time expansion substitutes every `args` placeholder of the command
text by the escaped argument string: on a text made of brace-free segments
separated by `args` placeholders, the result is the same segments separated
by the escaped argument string. -/
theorem resolve_args_interleave (esc : Str → Str) (ctx : Context)
    (tn : FullyQualifiedName) (outs : OutputsManager) (d : Option Str)
    (args : List Str) (segs : List Str) (hlen : 2 ≤ segs.length)
    (hbr : ∀ x ∈ segs, '{' ∉ x)
    (heas : '{' ∉ escapedArgsStr esc (some args) d) :
    ctx.resolve_substitutions_with_args esc (interleave ("{args}".data) segs) tn outs
        args d
      = .ok (interleave (escapedArgsStr esc (some args) d) segs) := by
  cases segs with
  | nil => simp at hlen
  | cons x rest =>
  cases rest with
  | nil => simp at hlen
  | cons y r =>
  rw [Context.resolve_substitutions_with_args, Context.resolve_substitutions_inner]
  have hlook := lookupRepl_args (escapedArgsStr esc (some args) d) ctx tn outs
  have hS : interleave ("{args}".data) (x :: y :: r)
      = x ++ ('{' :: "args".data ++ '}' :: interleave ("{args}".data) (y :: r)) := by
    rw [interleave, List.append_assoc]
    rfl
  have hscan : scanGo (lookupRepl (escapedArgsStr esc (some args) d) ctx tn outs)
      (interleave ("{args}".data) (x :: y :: r)) (interleave ("{args}".data) (x :: y :: r))
      false
      = .ok (interleave (escapedArgsStr esc (some args) d) (x :: y :: r), true) := by
    rw [hS]
    rw [scanGo_step _ x (hbr x (List.mem_cons_self _ _)) "args".data (by decide)]
    rw [hlook]
    show scanGo (lookupRepl (escapedArgsStr esc (some args) d) ctx tn outs)
        (interleave ("{args}".data) (y :: r))
        (replaceAll ('{' :: "args".data ++ ['}']) (escapedArgsStr esc (some args) d)
          (x ++ ('{' :: "args".data ++ '}' :: interleave ("{args}".data) (y :: r))))
        (false || isArgsVar ("args".data))
      = .ok (interleave (escapedArgsStr esc (some args) d) (x :: y :: r), true)
    rw [← hS]
    rw [show (interleave ("{args}".data) (x :: y :: r))
          = (interleave ('{' :: ("args".data ++ ['}'])) (x :: y :: r)) from rfl]
    rw [List.cons_append]
    rw [replaceAll_interleave (x :: y :: r) hbr]
    rw [show (false || isArgsVar ("args".data)) = true from rfl]
    exact scanGo_interleave_args _ _ hlook (y :: r) (by simp)
      (fun z hz => hbr z (List.mem_cons_of_mem _ hz))
      _ (not_mem_interleave heas (x :: y :: r) hbr)
  rw [hscan]
  rfl

/-- On a brace-free text with a supplied argument list, run-time expansion
appends the escaped argument string with exactly one separating space. -/
theorem resolve_args_append (esc : Str → Str) (ctx : Context)
    (tn : FullyQualifiedName) (outs : OutputsManager) (d : Option Str)
    (args : List Str) (S : Str) (h : '{' ∉ S) :
    ctx.resolve_substitutions_with_args esc S tn outs args d
      = .ok (S ++ ' ' :: escapedArgsStr esc (some args) d) := by
  rw [Context.resolve_substitutions_with_args, Context.resolve_substitutions_inner]
  rw [scanGo_no_brace _ _ _ _ h]
  rfl

/-- C5: run-time argument expansion.  Each `args` placeholder is replaced by
the caller-supplied arguments, shell-escaped and joined with single spaces
(an empty argument list giving `default_args` or the empty string, through
`escapedArgsStr`); and when the text has no `args` placeholder but an
argument list was supplied, the escaped argument string is appended after
exactly one space. -/
theorem c5_args_expansion :
    (∀ (esc : Str → Str) (ctx : Context) (tn : FullyQualifiedName)
      (outs : OutputsManager) (d : Option Str) (args : List Str) (segs : List Str),
      2 ≤ segs.length →
      (∀ x ∈ segs, '{' ∉ x) →
      '{' ∉ escapedArgsStr esc (some args) d →
      ctx.resolve_substitutions_with_args esc (interleave ("{args}".data) segs) tn outs
          args d
        = .ok (interleave (escapedArgsStr esc (some args) d) segs)) ∧
    (∀ (esc : Str → Str) (ctx : Context) (tn : FullyQualifiedName)
      (outs : OutputsManager) (d : Option Str) (args : List Str) (S : Str),
      '{' ∉ S →
      ctx.resolve_substitutions_with_args esc S tn outs args d
        = .ok (S ++ ' ' :: escapedArgsStr esc (some args) d)) :=
  ⟨resolve_args_interleave, resolve_args_append⟩

/-- Witness for C5 at concrete inputs, mirroring the source's unit tests:
`echo {args}` with argument `a b` resolves to `echo 'a b'`; `echo` with
argument `$arg` appends the escaped argument; `echo` with an empty argument
list and `default_args = arg` appends the default. -/
theorem c5_args_expansion_witness :
    emptyCtx.resolve_substitutions_with_args escModel ("echo {args}".data) fqnHello
        { outputs := [] } ["a b".data] none
      = .ok ("echo ".data ++ (squote :: "a b".data ++ [squote])) ∧
    emptyCtx.resolve_substitutions_with_args escModel ("echo".data) fqnHello
        { outputs := [] } ["$arg".data] none
      = .ok ("echo ".data ++ (squote :: "$arg".data ++ [squote])) ∧
    emptyCtx.resolve_substitutions_with_args escModel ("echo".data) fqnHello
        { outputs := [] } [] (some ("arg".data))
      = .ok ("echo arg".data) := by
  refine ⟨?_, ?_, ?_⟩
  · have h := c5_args_expansion.1 escModel emptyCtx fqnHello { outputs := [] } none
      ["a b".data] ["echo ".data, []] (by decide) (by decide) (by decide)
    exact h
  · have h := c5_args_expansion.2 escModel emptyCtx fqnHello { outputs := [] } none
      ["$arg".data] ("echo".data) (by decide)
    exact h
  · have h := c5_args_expansion.2 escModel emptyCtx fqnHello { outputs := [] }
      (some ("arg".data)) [] "echo".data (by decide)
    exact h

/-- The scanning loop preserves an unmatched-brace suffix of the accumulated
result: every replacement pattern ends in a closing brace, which the suffix
lacks, so no replacement ever touches it. -/
theorem scanGo_suffix (look : Str → Option Str) (U : Str) (hU : '}' ∉ U) :
    ∀ n rest, rest.length ≤ n → ∀ (X : Str) (flag : Bool) (R : Str) (flag' : Bool),
      scanGo look rest (X ++ '{' :: U) flag = .ok (R, flag') →
      ∃ X', R = X' ++ '{' :: U := by
  have hB : ('}' : Char) ∉ '{' :: U := by
    intro hm
    rcases List.mem_cons.mp hm with hm | hm
    · exact absurd hm (by decide)
    · exact hU hm
  intro n
  induction n with
  | zero =>
    intro rest hr X flag R flag' h
    have hnil : rest = [] := List.eq_nil_of_length_eq_zero (Nat.le_zero.mp hr)
    subst hnil
    rw [scanGo] at h
    simp only [Except.ok.injEq, Prod.mk.injEq] at h
    exact ⟨X, h.1.symm⟩
  | succ n ih =>
    intro rest hr X flag R flag' h
    cases rest with
    | nil =>
      rw [scanGo] at h
      simp only [Except.ok.injEq, Prod.mk.injEq] at h
      exact ⟨X, h.1.symm⟩
    | cons c cs =>
      rw [scanGo] at h
      cases hf : findChar '{' (c :: cs) with
      | none =>
        simp only [hf, Except.ok.injEq, Prod.mk.injEq] at h
        exact ⟨X, h.1.symm⟩
      | some f =>
        simp only [hf] at h
        cases he : findChar '}' ((c :: cs).drop f) with
        | none =>
          simp only [he, Except.ok.injEq, Prod.mk.injEq] at h
          exact ⟨X, h.1.symm⟩
        | some e =>
          simp only [he] at h
          cases hlv : look (((c :: cs).drop (f + 1)).take (e - 1)) with
          | none =>
            simp only [hlv] at h
            exact Except.noConfusion h
          | some repl =>
            simp only [hlv] at h
            rw [replaceAll_append_right _ repl (List.getLast?_concat _) ('{' :: U) hB X] at h
            refine ih ((c :: cs).drop (f + e + 1)) ?_ _ _ _ _ h
            simp only [List.length_drop, List.length_cons] at hr ⊢
            omega

/-- Run-time expansion leaves a text whose braces never close untouched (no
arguments supplied). -/
theorem resolve_substitutions_no_close (ctx : Context) (esc : Str → Str) (s : Str)
    (tn : FullyQualifiedName) (outs : OutputsManager) (h : '}' ∉ s) :
    ctx.resolve_substitutions esc s tn outs = .ok s := by
  rw [Context.resolve_substitutions, Context.resolve_substitutions_inner]
  rw [scanGo_no_close _ _ _ _ h]
  rfl

/-- C6: run-time expansion returns a brace-free text unchanged, and any
literal opening brace with no closing brace after it survives into the
result verbatim (as the suffix starting at that brace). -/
theorem c6_unmatched_braces_intact :
    (∀ (esc : Str → Str) (ctx : Context) (tn : FullyQualifiedName)
      (outs : OutputsManager) (S : Str), '{' ∉ S →
      ctx.resolve_substitutions esc S tn outs = .ok S) ∧
    (∀ (esc : Str → Str) (ctx : Context) (tn : FullyQualifiedName)
      (outs : OutputsManager) (P U R : Str), '}' ∉ U →
      ctx.resolve_substitutions esc (P ++ '{' :: U) tn outs = .ok R →
      ∃ X', R = X' ++ '{' :: U) := by
  constructor
  · intro esc ctx tn outs S h
    exact resolve_substitutions_no_brace ctx esc S tn outs h
  · intro esc ctx tn outs P U R hU h
    rw [Context.resolve_substitutions, Context.resolve_substitutions_inner] at h
    cases hscan : scanGo (lookupRepl (escapedArgsStr esc none none) ctx tn outs)
        (P ++ '{' :: U) (P ++ '{' :: U) false with
    | error e =>
      rw [hscan] at h
      exact Except.noConfusion h
    | ok pr =>
      obtain ⟨R0, flag⟩ := pr
      rw [hscan] at h
      simp only [Option.isSome_none, Bool.false_eq_true, and_false, if_false,
        Except.ok.injEq] at h
      subst h
      exact scanGo_suffix _ U hU (P ++ '{' :: U).length _ (Nat.le_refl _) P false R0
        flag hscan

/-- Witness for C6: a brace-free command is unchanged, and `a{b`, whose
opening brace never closes, survives expansion verbatim. -/
theorem c6_unmatched_braces_witness :
    emptyCtx.resolve_substitutions escModel ("echo hello".data) fqnHello
        { outputs := [] } = .ok ("echo hello".data) ∧
    (∃ X', ("a\x7bb".data : Str) = X' ++ '{' :: "b".data) := by
  constructor
  · exact c6_unmatched_braces_intact.1 escModel emptyCtx fqnHello { outputs := [] }
      "echo hello".data (by decide)
  · exact c6_unmatched_braces_intact.2 escModel emptyCtx fqnHello { outputs := [] }
      "a".data ("b".data) "a\x7bb".data (by decide)
      (resolve_substitutions_no_close emptyCtx escModel ("a".data ++ '{' :: "b".data)
        fqnHello { outputs := [] } (by decide))

/-- The scanning loop consults its lookup only on the placeholders scanned
from the original text: two lookups agreeing there scan identically. -/
theorem scanGo_congr (look₁ look₂ : Str → Option Str) :
    ∀ n rest, rest.length ≤ n → ∀ (resolved : Str) (flag : Bool),
      (∀ v ∈ scanPlaceholders rest, look₁ v = look₂ v) →
      scanGo look₁ rest resolved flag = scanGo look₂ rest resolved flag := by
  intro n
  induction n with
  | zero =>
    intro rest hr resolved flag _
    have hnil : rest = [] := List.eq_nil_of_length_eq_zero (Nat.le_zero.mp hr)
    subst hnil
    rw [scanGo, scanGo]
  | succ n ih =>
    intro rest hr resolved flag hagree
    cases rest with
    | nil => rw [scanGo, scanGo]
    | cons c cs =>
      rw [scanGo, scanGo]
      cases hf : findChar '{' (c :: cs) with
      | none => simp only [hf]
      | some f =>
        simp only [hf]
        cases he : findChar '}' ((c :: cs).drop f) with
        | none => simp only [he]
        | some e =>
          simp only [he]
          have hsp : scanPlaceholders (c :: cs)
              = (((c :: cs).drop (f + 1)).take (e - 1))
                :: scanPlaceholders ((c :: cs).drop (f + e + 1)) := by
            rw [scanPlaceholders]
            simp only [hf, he]
          have hv12 : look₁ (((c :: cs).drop (f + 1)).take (e - 1))
              = look₂ (((c :: cs).drop (f + 1)).take (e - 1)) := by
            refine hagree _ ?_
            rw [hsp]
            exact List.mem_cons_self _ _
          rw [hv12]
          cases hlv : look₂ (((c :: cs).drop (f + 1)).take (e - 1)) with
          | none => simp only [hlv]
          | some repl =>
            simp only [hlv]
            refine ih _ ?_ _ _ ?_
            · simp only [List.length_drop, List.length_cons] at hr ⊢
              omega
            · intro v hv
              refine hagree v ?_
              rw [hsp]
              exact List.mem_cons_of_mem _ hv

/-- C9: run-time expansion is a single pass over the original text.  First,
the result depends on the lookup environment only through the placeholders
scanned from the original text — a placeholder name not occurring between
braces in the input is never looked up, whatever replacement values
introduce.  Second, a replacement value is emitted verbatim, not
recursively expanded: the replaced text around a single placeholder is the
replacement value spliced between the surrounding segments. -/
theorem c9_single_pass_no_reexpansion :
    (∀ (esc : Str → Str) (ctx ctx' : Context) (tn tn' : FullyQualifiedName)
      (outs outs' : OutputsManager) (args : Option (List Str)) (d : Option Str)
      (S : Str),
      (∀ v ∈ scanPlaceholders S,
        lookupRepl (escapedArgsStr esc args d) ctx tn outs v
          = lookupRepl (escapedArgsStr esc args d) ctx' tn' outs' v) →
      ctx.resolve_substitutions_inner esc S tn outs args d
        = Context.resolve_substitutions_inner ctx' esc S tn' outs' args d) ∧
    (∀ (esc : Str → Str) (ctx : Context) (tn : FullyQualifiedName)
      (outs : OutputsManager) (P v Q R : Str),
      '{' ∉ P → '}' ∉ v → '{' ∉ Q →
      lookupRepl [] ctx tn outs v = some R →
      ctx.resolve_substitutions esc (P ++ ('{' :: v ++ '}' :: Q)) tn outs
        = .ok (P ++ R ++ Q)) := by
  constructor
  · intro esc ctx ctx' tn tn' outs outs' args d S hagree
    rw [Context.resolve_substitutions_inner, Context.resolve_substitutions_inner]
    rw [scanGo_congr _ _ S.length S (Nat.le_refl _) S false hagree]
  · intro esc ctx tn outs P v Q R hP hv hQ hlook
    rw [Context.resolve_substitutions, Context.resolve_substitutions_inner]
    rw [scanGo_step _ P hP v hv Q _ false]
    have hlook' : lookupRepl (escapedArgsStr esc none none) ctx tn outs v = some R :=
      hlook
    rw [hlook']
    have hafter : scanGo (lookupRepl (escapedArgsStr esc none none) ctx tn outs) Q
        (replaceAll ('{' :: v ++ ['}']) R (P ++ ('{' :: v ++ '}' :: Q)))
        (false || isArgsVar v)
        = .ok (P ++ R ++ Q, false || isArgsVar v) := by
      rw [List.cons_append]
      rw [replaceAll_append_left hP]
      rw [show (('{' : Char) :: v ++ '}' :: Q) = ('{' :: (v ++ ['}'])) ++ Q from by simp]
      rw [replaceAll_consume _ _ _ (by simp)]
      rw [replaceAll_head_not_mem hQ]
      rw [scanGo_no_brace _ _ _ _ hQ]
      rw [show P ++ (R ++ Q) = P ++ R ++ Q from (List.append_assoc P R Q).symm]
    simp only []
    rw [hafter]
    show (if ¬(false || isArgsVar v) = true ∧ (none : Option (List Str)).isSome = true
        then Except.ok ((P ++ R ++ Q) ++ ' ' :: escapedArgsStr esc none none)
        else Except.ok (P ++ R ++ Q))
      = Except.ok (P ++ R ++ Q)
    rw [if_neg ?_]
    rintro ⟨-, hfa⟩
    simp at hfa

/-- Witness for C9: with `x` bound to the literal text `{y}` and `y` bound
to `boom`, expanding `echo {x}` yields `echo {y}` — the introduced
placeholder is not expanded although `y` is defined. -/
theorem c9_single_pass_witness :
    ctx9.resolve_substitutions escModel ("echo {x}".data) fqnHello { outputs := [] }
      = .ok ("echo {y}".data) ∧
    (lookupA ctx9.variables_ fqnHello).bind (fun vars => lookupA vars ("y".data))
      = some ("boom".data) := by
  constructor
  · have h := c9_single_pass_no_reexpansion.2 escModel ctx9 fqnHello { outputs := [] }
      ("echo ".data) ("x".data) [] ("{y}".data) (by decide) (by decide) (by decide) (by decide)
    exact h
  · decide
